import Mathlib

/-!
# Verification development for ytt: schema annotations and the library loader

Shallow embedding of `pkg/schema/annotations.go` and
`pkg/workspace/library_loader.go`.

Conventions of the embedding:

* a Go `error` is a value of `Err`; a function returning `(T, error)` returns
  `Except Err T`, a nil pointer or nil interface result is `Option.none`;
* a Go slice is a `List`;
* Go packages that the two files import but that are not part of them
  (`filepos`, `template`, `core`, `yamlmeta`, `files`, the template loader, the
  overlay primitive ...) appear as plain data types or as fields of a record
  of collaborators.
-/

namespace Ytt

/-! ## Shared data -/

/-- Source position (`*filepos.Position`); only its identity matters here. -/
structure Position where
  line : Nat
  deriving DecidableEq, Repr

/-- The diagnostic `schemaAssertionError` built by `NewTypeAnnotation`. -/
structure schemaAssertionError where
  position : Position
  description : String
  expected : String
  found : String
  hints : List String
  deriving DecidableEq, Repr

/-- A Go `error` value: either a structured schema diagnostic or an error that
only carries a message (`fmt.Errorf`, errors of collaborators). -/
inductive Err where
  | assertion (e : schemaAssertionError)
  | message (msg : String)
  deriving DecidableEq, Repr

namespace Schema

/-! ## `pkg/schema/annotations.go` -/

/-- Annotation names (`structmeta.AnnotationName` is a string type). -/
abbrev AnnotationName := String

def AnnotationNullable : AnnotationName := "schema/nullable"
def AnnotationType : AnnotationName := "schema/type"
def TypeAnnotationKwargAny : String := "any"

/-- Starlark values as far as `NewTypeAnnotation` distinguishes them: it asks
whether a value is a `starlark.String`, whether it is a `starlark.Bool`, and
prints its Go type with `%T`.  `other` stands for every further Starlark type,
identified by its Go type name. -/
inductive StarlarkValue where
  | string (s : String)
  | bool (b : Bool)
  | int (i : Int)
  | none
  | other (goType : String)
  deriving DecidableEq, Repr

/-- Go type name of a Starlark value, what `fmt.Sprintf("%T", v)` prints. -/
def StarlarkValue.goTypeName : StarlarkValue → String
  | .string _ => "starlark.String"
  | .bool _ => "starlark.Bool"
  | .int _ => "starlark.Int"
  | .none => "starlark.NoneType"
  | .other t => t

/-- Modelled from the spec: `core.NewStarlarkValue(v).AsString()` is not part of
the two files; a keyword name is a string exactly when the value is a
`starlark.String`, any other value is an error. -/
def StarlarkValue.AsString : StarlarkValue → Except Err String
  | .string s => .ok s
  | v => .error (.message ("expected starlark.String, but was " ++ v.goTypeName))

/-- Modelled from the spec: `core.NewStarlarkValue(v).AsBool()` is not part of
the two files; "a boolean value" is a `starlark.Bool`, any other value is an
error. -/
def StarlarkValue.AsBool : StarlarkValue → Except Err Bool
  | .bool b => .ok b
  | v => .error (.message ("expected starlark.Bool, but was " ++ v.goTypeName))

/-- The part of `template.NodeAnnotation` the file reads: the keyword
arguments, each a pair `(kwarg[0], kwarg[1])` of name and value. -/
structure NodeAnnotation where
  Kwargs : List (StarlarkValue × StarlarkValue)
  deriving DecidableEq, Repr

/-- Values of `yamlmeta.Type`.  `AnyType` and `NullType` are the two types the
file constructs; `other` stands for the types computed elsewhere
(`newCollectionItemValueType`), identified by a tag. -/
inductive YType where
  | AnyType (Position : Position)
  | NullType (ValueType : YType) (Position : Position)
  | other (tag : Nat)
  deriving DecidableEq, Repr

structure TypeAnnotation where
  any : Bool
  itemPosition : Position
  deriving DecidableEq, Repr

structure NullableAnnotation where
  providedValueType : YType
  itemPosition : Position
  deriving DecidableEq, Repr

/-- The interface `Annotation` with its two implementations. -/
inductive Annotation where
  | type (t : TypeAnnotation)
  | nullable (n : NullableAnnotation)
  deriving DecidableEq, Repr

/-- The diagnostic for a `schema/type` annotation without keyword arguments. -/
def missingKwargError (pos : Position) : schemaAssertionError :=
  { position := pos
    description := "expected @" ++ AnnotationType ++ " annotation to have keyword argument and value"
    expected := "valid keyword argument and value"
    found := "missing keyword argument and value"
    hints := ["Supported key-value pairs are '" ++ TypeAnnotationKwargAny ++ "=True', '"
                ++ TypeAnnotationKwargAny ++ "=False'"] }

/-- The diagnostic for `any=<non-boolean>`. -/
def nonBoolError (pos : Position) (value : StarlarkValue) : schemaAssertionError :=
  { position := pos
    description := "unknown @schema/type annotation keyword argument"
    expected := "starlark.Bool"
    found := value.goTypeName
    hints := ["Supported kwargs are '" ++ TypeAnnotationKwargAny ++ "'"] }

/-- The diagnostic for a keyword of another name. -/
def unknownKwargError (pos : Position) (argName : String) : schemaAssertionError :=
  { position := pos
    description := "unknown @schema/type annotation keyword argument"
    expected := "A valid kwarg"
    found := argName
    hints := ["Supported kwargs are '" ++ TypeAnnotationKwargAny ++ "'"] }

/-- The loop `for _, kwarg := range ann.Kwargs` of `NewTypeAnnotation`, with
the annotation under construction as accumulator. -/
def typeKwargsLoop (pos : Position) :
    List (StarlarkValue × StarlarkValue) → TypeAnnotation → Except Err TypeAnnotation
  | [], typeAnn => .ok typeAnn
  | kwarg :: rest, typeAnn =>
    match kwarg.1.AsString with
    | .error err => .error err
    | .ok argName =>
      if argName = TypeAnnotationKwargAny then
        match kwarg.2.AsBool with
        | .error _ => .error (.assertion (nonBoolError pos kwarg.2))
        | .ok isAnyType => typeKwargsLoop pos rest { typeAnn with any := isAnyType }
      else
        .error (.assertion (unknownKwargError pos argName))

def NewTypeAnnotation (ann : NodeAnnotation) (pos : Position) : Except Err TypeAnnotation :=
  if ann.Kwargs.length = 0 then
    .error (.assertion (missingKwargError pos))
  else
    typeKwargsLoop pos ann.Kwargs { any := false, itemPosition := pos }

def NewNullableAnnotation (ann : NodeAnnotation) (valueType : YType) (pos : Position) :
    Except Err NullableAnnotation :=
  if ann.Kwargs.length ≠ 0 then
    .error (.message ("expected @" ++ AnnotationNullable
      ++ " annotation to not contain any keyword arguments"))
  else
    .ok { providedValueType := valueType, itemPosition := pos }

def TypeAnnotation.NewTypeFromAnn (t : TypeAnnotation) : Option YType :=
  if t.any then some (.AnyType t.itemPosition) else none

def TypeAnnotation.IsAny (t : TypeAnnotation) : Bool := t.any

def NullableAnnotation.NewTypeFromAnn (n : NullableAnnotation) : Option YType :=
  some (.NullType n.providedValueType n.itemPosition)

/-- Dynamic dispatch of the interface method `NewTypeFromAnn`. -/
def Annotation.NewTypeFromAnn : Annotation → Option YType
  | .type t => t.NewTypeFromAnn
  | .nullable n => n.NewTypeFromAnn

/-- A document node as `processOptionalAnnotation` sees it: its annotations
(`template.NewAnnotations(node)`, a map from annotation name to annotation,
here an association list read by first match), its child values
(`node.GetValues()`) and its position.  `Val` is the type of child values. -/
structure Node (Val : Type) where
  annotations : List (AnnotationName × NodeAnnotation)
  values : List Val
  position : Position

/-- Outcome of a call that may also end in a Go run-time panic. -/
inductive Outcome (α : Type) where
  | returned (r : Except Err α)
  | indexOutOfRange
  deriving Repr

/-- The function `processOptionalAnnotation`.  The function
`newCollectionItemValueType` lives in another file of the package and is a
parameter.  `node.GetValues()[0]` on a node without values is a run-time
panic. -/
def processOptionalAnnotation {Val : Type}
    (newCollectionItemValueType : Val → Position → Except Err YType)
    (node : Node Val) ( optionalAnnotation : AnnotationName) : Outcome (Option Annotation) :=
  match node.annotations.lookup optionalAnnotation with
  | some ann =>
    if optionalAnnotation = AnnotationNullable then
      match node.values with
      | [] => .indexOutOfRange
      | v0 :: _ =>
        match newCollectionItemValueType v0 node.position with
        | .error err => .returned (.error err)
        | .ok wrappedValueType =>
          match NewNullableAnnotation ann wrappedValueType node.position with
          | .error err => .returned (.error err)
          | .ok nullAnn => .returned (.ok (some (.nullable nullAnn)))
    else if optionalAnnotation = AnnotationType then
      match NewTypeAnnotation ann node.position with
      | .error err => .returned (.error err)
      | .ok typeAnn => .returned (.ok (some (.type typeAnn)))
    else
      .returned (.ok none)
  | none => .returned (.ok none)

/-- The loop of `collectAnnotations` over the annotation names still to probe,
with `anns` the annotations collected so far. -/
def collectLoop {Val : Type}
    (newCollectionItemValueType : Val → Position → Except Err YType) (item : Node Val) :
    List AnnotationName → List Annotation → Outcome (List Annotation)
  | [], anns => .returned (.ok anns)
  | annotation :: rest, anns =>
    match processOptionalAnnotation newCollectionItemValueType item annotation with
    | .indexOutOfRange => .indexOutOfRange
    | .returned (.error err) => .returned (.error err)
    | .returned (.ok (some ann)) =>
      collectLoop newCollectionItemValueType item rest (anns ++ [ann])
    | .returned (.ok none) => collectLoop newCollectionItemValueType item rest anns

def collectAnnotations {Val : Type}
    (newCollectionItemValueType : Val → Position → Except Err YType) (item : Node Val) :
    Outcome (List Annotation) :=
  collectLoop newCollectionItemValueType item [AnnotationType, AnnotationNullable] []

/-! ### `sort.Slice` on short slices

Go's `sort.Slice` sorts a slice of at most 12 elements by insertion sort
(`insertionSortLessFunc`; before Go 1.19 `insertionSort_func`, preceded by a
gap-6 pass for more than 6 elements), calling `less(j, j-1)` on the slice as
it stands and swapping in place.  The model below is that insertion sort; it
is exact for slices of at most 6 elements in every Go version, which covers
every list `collectAnnotations` returns (at most 2 elements). -/

/-- In-place swap of the elements at `i` and `j`. -/
def swapAt {α : Type} (xs : List α) (i j : Nat) : List α :=
  match xs.get? i, xs.get? j with
  | some a, some b => (xs.set i b).set j a
  | _, _ => xs

/-- The inner loop `for j := i; j > a && less(j, j-1); j-- { swap(j, j-1) }`
with `a = 0`; `less` reads the slice as it stands. -/
def insertDown {α : Type} (less : List α → Nat → Nat → Bool) : Nat → List α → List α
  | 0, xs => xs
  | j + 1, xs =>
    if less xs (j + 1) j then insertDown less j (swapAt xs (j + 1) j) else xs

/-- The outer loop `for i := a + 1; i < b; i++` over the indices `is`. -/
def insertionLoop {α : Type} (less : List α → Nat → Nat → Bool) : List Nat → List α → List α
  | [], xs => xs
  | i :: is, xs => insertionLoop less is (insertDown less i xs)

/-- The call `sort.Slice(xs, less)` for a short slice. -/
def sortSlice {α : Type} (less : List α → Nat → Nat → Bool) (xs : List α) : List α :=
  insertionLoop less (List.range' 1 (xs.length - 1)) xs

/-- The closure `preferAnyTypeOverNullableType`; it reads `annsCopy[i]` and
ignores `j`. -/
def preferAnyTypeOverNullableType (annsCopy : List Annotation) (i _j : Nat) : Bool :=
  match annsCopy.get? i with
  | some (.type typeAnn) => typeAnn.IsAny
  | _ => false

def convertAnnotationsToSingleType (anns : List Annotation) : Option YType :=
  let annsCopy := [] ++ anns
  if annsCopy.length = 0 then
    none
  else
    match (sortSlice preferAnyTypeOverNullableType annsCopy).get? 0 with
    | some first => first.NewTypeFromAnn
    | none => none

/-! ### Sample inputs -/

/-- A value-type function for nodes whose child values are numbers. -/
def sampleItemType (v : Nat) (_pos : Position) : Except Err YType := .ok (.other v)

/-- A node annotated `schema/type any=True` and `schema/nullable`. -/
def sampleAnyNode : Node Nat :=
  { annotations := [(AnnotationType, ⟨[(.string "any", .bool true)]⟩), (AnnotationNullable, ⟨[]⟩)]
    values := [7]
    position := ⟨4⟩ }

/-- A node annotated `schema/nullable` only. -/
def sampleNullableNode : Node Nat :=
  { annotations := [(AnnotationNullable, ⟨[]⟩)], values := [7], position := ⟨4⟩ }

end Schema

namespace Workspace

/-! ## `pkg/workspace/library_loader.go` -/

open Schema (AnnotationName StarlarkValue)

inductive FileType where
  | TypeYAML
  | TypeText
  | TypeStarlark
  | TypeUnknown
  deriving DecidableEq, Repr

/-- The part of `files.File` the loader reads: `RelativePath()`, `Type()`,
`IsTemplate()`, `IsForOutput()`, `IsLibrary()`.  `MarkForOutput` writes the
for-output flag. -/
structure File where
  relativePath : String
  type : FileType
  isTemplate : Bool
  isForOutput : Bool
  isLibrary : Bool
  deriving DecidableEq, Repr

def File.MarkForOutput (f : File) (forOutput : Bool) : File :=
  { f with isForOutput := forOutput }

/-- A library, identified by its path. -/
structure Library where
  path : String
  deriving DecidableEq, Repr

/-- A `FileInLibrary`: the file, its library, and the value of the method
`FileInLibrary.RelativePath()` (declared in another file of the package). -/
structure FileInLibrary where
  File : File
  Library : Library
  relativePath : String
  deriving DecidableEq, Repr

structure LibraryExecutionContext where
  Current : Library
  Root : Library
  deriving DecidableEq, Repr

/-- A `yamlmeta.Document`; the loader never looks inside. -/
structure Document where
  content : String
  deriving DecidableEq, Repr

structure DocumentSet where
  Items : List Document
  deriving DecidableEq, Repr

/-- The part of `schema.DocumentSchema` the loader reads: `Source` (never nil
for a schema built by `NewDocumentSchema`) and `HasLibRef()`. -/
structure DocumentSchema where
  Source : Document
  HasLibRef : Bool
  deriving DecidableEq, Repr

/-- Modelled from the spec: the interface `Schema` and the constructor
`schema.NewPermissiveSchema` are declared outside the two files.  A schema is
the `NullSchema` sentinel ("no schema declared"), a document schema, or the
permissive schema ("accepts any structure"), which the spec keeps distinct
from `NullSchema`. -/
inductive Schema where
  | NullSchema
  | document (s : DocumentSchema)
  | permissive
  deriving DecidableEq, Repr

def NewPermissiveSchema : Schema := .permissive

/-- The part of `DataValues` the loader reads: `Desc()` and `IsUsed()`. -/
structure DataValues where
  Desc : String
  IsUsed : Bool
  deriving DecidableEq, Repr

abbrev StringDict := List (String × StarlarkValue)

structure EvalExport where
  Path : String
  Symbols : StringDict
  deriving DecidableEq, Repr

/-- The result of `files.NewOutputFile(relativePath, data, type)`. -/
structure OutputFile where
  relativePath : String
  data : String
  type : FileType
  deriving DecidableEq, Repr

def NewOutputFile (relativePath data : String) (type : FileType) : OutputFile :=
  { relativePath := relativePath, data := data, type := type }

structure EvalResult where
  Files : List OutputFile
  DocSet : DocumentSet
  Exports : List EvalExport
  deriving DecidableEq, Repr

/-- The Go map `map[*FileInLibrary]*yamlmeta.DocumentSet`: an association list
without repeated keys. -/
abbrev DocSets := List (FileInLibrary × DocumentSet)

/-- The assignment `docSets[k] = v`. -/
def DocSets.set (m : DocSets) (k : FileInLibrary) (v : DocumentSet) : DocSets :=
  if (m.lookup k).isSome then m.map (fun p => if p.1 = k then (k, v) else p)
  else m ++ [(k, v)]

/-- Observable steps of a run: calls into the template loader and the other
collaborators, writes of the for-output flag, and user-interface output. -/
inductive Event where
  | ParseYAML (file : File)
  | MarkForOutput (file : FileInLibrary) (forOutput : Bool)
  | EvalYAML (ctx : LibraryExecutionContext) (file : File)
  | EvalText (ctx : LibraryExecutionContext) (file : File)
  | EvalStarlark (ctx : LibraryExecutionContext) (file : File)
  | overlay (base patch : Document)
  | PostProcess (docSets : DocSets)
  | Warnf (msg : String)
  | Debugf (msg : String)
  deriving DecidableEq, Repr

/-- The collaborators of the loader, which live outside the two files.  The
type `σ` is the state of a `TemplateLoader` (the evaluation engine); the
evaluating calls read and update it. -/
structure Collaborators (σ : Type) where
  /-- name of the schema discovery annotation -/
  AnnotationSchemaMatch : AnnotationName
  /-- name of the data-values discovery annotation -/
  AnnotationDataValues : AnnotationName
  NewEmptyDataValues : DataValues
  /-- result of `NewRootLibrary(nil)` -/
  NewRootLibraryNil : Library
  /-- loader built by `NewTemplateLoader(values, libraryValues, librarySchemas, ...)` -/
  NewTemplateLoader : DataValues → List DataValues → List DocumentSchema → σ
  /-- non-evaluating `loader.ParseYAML(file)` -/
  ParseYAML : File → Except Err DocumentSet
  /-- method `DocExtractor{docSet}.Extract(annName)`: matching and other documents -/
  Extract : AnnotationName → DocumentSet → Except Err (List Document × List Document)
  EvalYAML : σ → LibraryExecutionContext → File → Except Err (StringDict × DocumentSet) × σ
  /-- call `loader.EvalText`; the second component is `resultVal.AsString()` -/
  EvalText : σ → LibraryExecutionContext → File → Except Err (StringDict × String) × σ
  EvalStarlark : σ → LibraryExecutionContext → File → Except Err StringDict × σ
  NewDocumentSchema : Document → Except Err DocumentSchema
  /-- the overlay-merge primitive `overlay(base, patch)` -/
  overlay : Document → Document → Except Err Document
  /-- method `(&OverlayPostProcessing{docSets}).Apply()` -/
  PostProcess : DocSets → Except Err DocSets
  /-- method `docSet.AsBytes()` -/
  AsBytes : DocumentSet → Except Err String
  /-- method `err.Error()` -/
  ErrorString : Err → String
  /-- the records behind the pointers `libraryValues` as they stand in a
  loader state: the engine sets their used flag while it evaluates -/
  derefLibraryValues : σ → List DataValues → List DataValues

/-- Outcome of a method that also writes file flags and produces events: the
returned values, the accessible files as they stand afterwards, the events
in order. -/
structure Run (α : Type) where
  result : Except Err α
  files : List FileInLibrary
  trace : List Event

/-- The loop of `filesByAnnotation` over the files still to visit, with
`valuesFiles` the files collected so far. -/
def filesByAnnotationLoop {σ : Type} (E : Collaborators σ) (annName : AnnotationName) :
    List FileInLibrary → List FileInLibrary → Run (List FileInLibrary)
  | [], valuesFiles => { result := .ok valuesFiles, files := [], trace := [] }
  | fileInLib :: rest, valuesFiles =>
    if fileInLib.File.type = .TypeYAML ∧ fileInLib.File.isTemplate = true then
      match E.ParseYAML fileInLib.File with
      | .error err =>
        { result := .error err, files := fileInLib :: rest, trace := [.ParseYAML fileInLib.File] }
      | .ok docSet =>
        match E.Extract annName docSet with
        | .error err =>
          { result := .error err, files := fileInLib :: rest,
            trace := [.ParseYAML fileInLib.File] }
        | .ok (values, _) =>
          if values.length > 0 then
            let marked : FileInLibrary :=
              { fileInLib with File := fileInLib.File.MarkForOutput false }
            let r := filesByAnnotationLoop E annName rest (valuesFiles ++ [marked])
            { result := r.result, files := marked :: r.files,
              trace := .ParseYAML fileInLib.File :: .MarkForOutput fileInLib false :: r.trace }
          else
            let r := filesByAnnotationLoop E annName rest valuesFiles
            { result := r.result, files := fileInLib :: r.files,
              trace := .ParseYAML fileInLib.File :: r.trace }
    else
      let r := filesByAnnotationLoop E annName rest valuesFiles
      { result := r.result, files := fileInLib :: r.files, trace := r.trace }

/-- The method `filesByAnnotation`; `files` is the list
`ll.libraryCtx.Current.ListAccessibleFiles()`, one entry per physical file. -/
def filesByAnnotation {σ : Type} (E : Collaborators σ) (files : List FileInLibrary)
    (annName : AnnotationName) : Run (List FileInLibrary) :=
  filesByAnnotationLoop E annName files []

def schemaFiles {σ : Type} (E : Collaborators σ) (files : List FileInLibrary) :
    Run (List FileInLibrary) :=
  filesByAnnotation E files E.AnnotationSchemaMatch

def valuesFiles {σ : Type} (E : Collaborators σ) (files : List FileInLibrary) :
    Run (List FileInLibrary) :=
  filesByAnnotation E files E.AnnotationDataValues

/-- The inner loop of `collectSchemaDocs` over the extracted documents. -/
def newSchemasLoop {σ : Type} (E : Collaborators σ) :
    List Document → List DocumentSchema → Except Err (List DocumentSchema)
  | [], documentSchemas => .ok documentSchemas
  | doc :: rest, documentSchemas =>
    match E.NewDocumentSchema doc with
    | .error err => .error err
    | .ok newSchema => newSchemasLoop E rest (documentSchemas ++ [newSchema])

/-- The outer loop of `collectSchemaDocs`; returns the result and the events. -/
def collectSchemaDocsLoop {σ : Type} (E : Collaborators σ) :
    List FileInLibrary → σ → List DocumentSchema →
      Except Err (List DocumentSchema) × List Event
  | [], _, documentSchemas => (.ok documentSchemas, [])
  | file :: rest, loader, documentSchemas =>
    let libraryCtx : LibraryExecutionContext :=
      { Current := file.Library, Root := E.NewRootLibraryNil }
    match E.EvalYAML loader libraryCtx file.File with
    | (.error err, _) => (.error err, [.EvalYAML libraryCtx file.File])
    | (.ok (_, resultDocSet), loader1) =>
      match E.Extract E.AnnotationSchemaMatch resultDocSet with
      | .error err => (.error err, [.EvalYAML libraryCtx file.File])
      | .ok (docs, _) =>
        match newSchemasLoop E docs documentSchemas with
        | .error err => (.error err, [.EvalYAML libraryCtx file.File])
        | .ok documentSchemas1 =>
          let r := collectSchemaDocsLoop E rest loader1 documentSchemas1
          (r.1, .EvalYAML libraryCtx file.File :: r.2)

def collectSchemaDocs {σ : Type} (E : Collaborators σ) (schemaFiles : List FileInLibrary)
    (loader : σ) : Except Err (List DocumentSchema) × List Event :=
  collectSchemaDocsLoop E schemaFiles loader []

/-- The loop `for _, docSchema := range documentSchemas` of `Schemas`, with the
variables `resultSchemasDoc` (nil at first) and `librarySchemas`. -/
def mergeLoop {σ : Type} (E : Collaborators σ) :
    List DocumentSchema → Option Document → List DocumentSchema →
      Except Err (Option Document × List DocumentSchema) × List Event
  | [], resultSchemasDoc, librarySchemas => (.ok (resultSchemasDoc, librarySchemas), [])
  | docSchema :: rest, resultSchemasDoc, librarySchemas =>
    if docSchema.HasLibRef then
      mergeLoop E rest resultSchemasDoc (librarySchemas ++ [docSchema])
    else
      match resultSchemasDoc with
      | none => mergeLoop E rest (some docSchema.Source) librarySchemas
      | some base =>
        match E.overlay base docSchema.Source with
        | .error err => (.error err, [.overlay base docSchema.Source])
        | .ok merged =>
          let r := mergeLoop E rest (some merged) librarySchemas
          (r.1, .overlay base docSchema.Source :: r.2)

/-- The method `Schemas`.  `SchemaEnabled` is `ll.templateLoaderOpts.SchemaEnabled`,
`files` the accessible files of the current library. -/
def Schemas {σ : Type} (E : Collaborators σ) (SchemaEnabled : Bool)
    (files : List FileInLibrary) (schemaOverlays : List DocumentSchema) :
    Run (Schema × List DocumentSchema) :=
  let loader := E.NewTemplateLoader E.NewEmptyDataValues [] []
  let found := schemaFiles E files
  match found.result with
  | .error err => { result := .error err, files := found.files, trace := found.trace }
  | .ok schemaFiles =>
    if SchemaEnabled then
      match collectSchemaDocs E schemaFiles loader with
      | (.error err, tr) =>
        { result := .error err, files := found.files, trace := found.trace ++ tr }
      | (.ok documentSchemas, tr) =>
        match mergeLoop E (documentSchemas ++ schemaOverlays) none [] with
        | (.error err, tr2) =>
          { result := .error err, files := found.files, trace := found.trace ++ tr ++ tr2 }
        | (.ok (some resultSchemasDoc, librarySchemas), tr2) =>
          match E.NewDocumentSchema resultSchemasDoc with
          | .error err =>
            { result := .error err, files := found.files, trace := found.trace ++ tr ++ tr2 }
          | .ok finalSchema =>
            { result := .ok (.document finalSchema, librarySchemas), files := found.files,
              trace := found.trace ++ tr ++ tr2 }
        | (.ok (none, librarySchemas), tr2) =>
          { result := .ok (.NullSchema, librarySchemas), files := found.files,
            trace := found.trace ++ tr ++ tr2 }
    else
      let warning : List Event :=
        match schemaFiles with
        | first :: _ =>
          [.Warnf ("Warning: schema document was detected (" ++ first.File.relativePath
            ++ "), but schema experiment flag is not enabled. "
            ++ "Did you mean to include --enable-experiment-schema?\n")]
        | [] => []
      { result := .ok (NewPermissiveSchema, []), files := found.files,
        trace := found.trace ++ warning }

/-- The method `checkUnusedDVs`: `none` is a nil error, `some msg` the error
built by `fmt.Errorf`. -/
def checkUnusedDVs (libraryValues : List DataValues) : Option String :=
  let unusedValuesDescs := (libraryValues.filter (fun dv => !dv.IsUsed)).map (fun dv => dv.Desc)
  if unusedValuesDescs.length = 0 then
    none
  else
    some ("Expected all provided library data values documents "
      ++ "to be used but found unused: " ++ ", ".intercalate unusedValuesDescs)

/-- The variables of the loop of `eval`: the loader state, `exports`,
`docSets`, `outputFiles`, and the events so far. -/
structure EvalState (σ : Type) where
  loader : σ
  exports : List EvalExport
  docSets : DocSets
  outputFiles : List OutputFile
  trace : List Event

/-- One iteration of the loop of `eval`, for the file `fileInLib`: the error
that ends the loop, if any, and the variables afterwards.  `Root` is
`ll.libraryCtx.Root`. -/
def evalFile {σ : Type} (E : Collaborators σ) (Root : Library) (st : EvalState σ)
    (fileInLib : FileInLibrary) : Option Err × EvalState σ :=
  let libraryCtx : LibraryExecutionContext := { Current := fileInLib.Library, Root := Root }
  if fileInLib.File.isForOutput then
    match fileInLib.File.type with
    | .TypeYAML =>
      match E.EvalYAML st.loader libraryCtx fileInLib.File with
      | (.error err, loader1) =>
        (some err, { st with loader := loader1,
                             trace := st.trace ++ [.EvalYAML libraryCtx fileInLib.File] })
      | (.ok (_, resultDocSet), loader1) =>
        (none, { st with loader := loader1,
                         docSets := st.docSets.set fileInLib resultDocSet,
                         trace := st.trace ++ [.EvalYAML libraryCtx fileInLib.File] })
    | .TypeText =>
      match E.EvalText st.loader libraryCtx fileInLib.File with
      | (.error err, loader1) =>
        (some err, { st with loader := loader1,
                             trace := st.trace ++ [.EvalText libraryCtx fileInLib.File] })
      | (.ok (_, resultStr), loader1) =>
        (none, { st with
          loader := loader1,
          outputFiles := st.outputFiles ++
            [NewOutputFile fileInLib.relativePath resultStr fileInLib.File.type],
          trace := st.trace ++ [.EvalText libraryCtx fileInLib.File,
            .Debugf ("### " ++ fileInLib.relativePath ++ " result\n" ++ resultStr)] })
    | _ => (some (.message "Unknown file type"), st)
  else if fileInLib.File.isLibrary then
    match fileInLib.File.type with
    | .TypeYAML =>
      match E.EvalYAML st.loader libraryCtx fileInLib.File with
      | (.error err, loader1) =>
        (some err, { st with loader := loader1,
                             trace := st.trace ++ [.EvalYAML libraryCtx fileInLib.File] })
      | (.ok (globals, _), loader1) =>
        (none, { st with loader := loader1,
                         exports := st.exports ++
                           [{ Path := fileInLib.relativePath, Symbols := globals }],
                         trace := st.trace ++ [.EvalYAML libraryCtx fileInLib.File] })
    | .TypeText =>
      match E.EvalText st.loader libraryCtx fileInLib.File with
      | (.error err, loader1) =>
        (some err, { st with loader := loader1,
                             trace := st.trace ++ [.EvalText libraryCtx fileInLib.File] })
      | (.ok (globals, _), loader1) =>
        (none, { st with loader := loader1,
                         exports := st.exports ++
                           [{ Path := fileInLib.relativePath, Symbols := globals }],
                         trace := st.trace ++ [.EvalText libraryCtx fileInLib.File] })
    | .TypeStarlark =>
      match E.EvalStarlark st.loader libraryCtx fileInLib.File with
      | (.error err, loader1) =>
        (some err, { st with loader := loader1,
                             trace := st.trace ++ [.EvalStarlark libraryCtx fileInLib.File] })
      | (.ok globals, loader1) =>
        (none, { st with loader := loader1,
                         exports := st.exports ++
                           [{ Path := fileInLib.relativePath, Symbols := globals }],
                         trace := st.trace ++ [.EvalStarlark libraryCtx fileInLib.File] })
    | _ => (none, st)
  else
    (none, st)

/-- The loop `for _, fileInLib := range ll.libraryCtx.Current.ListAccessibleFiles()`
of `eval`: it ends at the first file whose iteration returns an error. -/
def evalLoop {σ : Type} (E : Collaborators σ) (Root : Library) :
    List FileInLibrary → EvalState σ → Option Err × EvalState σ
  | [], st => (none, st)
  | fileInLib :: rest, st =>
    match evalFile E Root st fileInLib with
    | (some err, st1) => (some err, st1)
    | (none, st1) => evalLoop E Root rest st1

/-- The method `eval`; `files` is the list `ListAccessibleFiles()` returns. -/
def eval {σ : Type} (E : Collaborators σ) (Root : Library) (files : List FileInLibrary)
    (values : DataValues) (libraryValues : List DataValues)
    (librarySchemas : List DocumentSchema) :
    Except Err (List EvalExport × DocSets × List OutputFile) × List Event :=
  let loader := E.NewTemplateLoader values libraryValues librarySchemas
  match evalLoop E Root files
      { loader := loader, exports := [], docSets := [], outputFiles := [], trace := [] } with
  | (some err, st) => (.error err, st.trace)
  | (none, st) =>
    match checkUnusedDVs (E.derefLibraryValues st.loader libraryValues) with
    | some msg => (.error (.message msg), st.trace)
    | none => (.ok (st.exports, st.docSets, st.outputFiles), st.trace)

/-- Modelled from the spec: `SortFilesInLibrary` is declared in another file of
the package; it sorts by a total order over (library path, relative path).
This is the comparison, library path first. -/
def fileOrderLE (a b : FileInLibrary) : Bool :=
  decide (a.Library.path < b.Library.path) ||
    (decide (a.Library.path = b.Library.path) && !decide (b.relativePath < a.relativePath))

/-- Modelled from the spec: `SortFilesInLibrary` is declared in another file of
the package; it sorts by a total order over (library path, relative path). -/
def SortFilesInLibrary (files : List FileInLibrary) : List FileInLibrary :=
  files.insertionSort (fun a b => fileOrderLE a b = true)

/-- The method `sortedOutputDocSets`.  `mapRange` is the order in which
`for file := range outputDocSets` visits the keys of the map, which Go leaves
unspecified: any permutation of the keys. -/
def sortedOutputDocSets (mapRange : List FileInLibrary → List FileInLibrary)
    (outputDocSets : DocSets) : List FileInLibrary :=
  SortFilesInLibrary (mapRange (outputDocSets.map Prod.fst))

/-- The loop of `Eval` over the sorted files, with the variable `result` and
the events so far.  A key that is not in the map would make `docSets[fileInLib]`
nil and `docSet.Items` a run-time panic; the keys come from the map. -/
def assembleLoop {σ : Type} (E : Collaborators σ) (docSets : DocSets) :
    List FileInLibrary → EvalResult → List Event → Except Err EvalResult × List Event
  | [], result, tr => (.ok result, tr)
  | fileInLib :: rest, result, tr =>
    match docSets.lookup fileInLib with
    | none => (.error (.message "invalid memory address or nil pointer dereference"), tr)
    | some docSet =>
      match E.AsBytes docSet with
      | .error err =>
        (.error (.message ("Marshaling template result: " ++ E.ErrorString err)), tr)
      | .ok resultDocBytes =>
        assembleLoop E docSets rest
          { result with
            DocSet := { Items := result.DocSet.Items ++ docSet.Items },
            Files := result.Files ++
              [NewOutputFile fileInLib.relativePath resultDocBytes fileInLib.File.type] }
          (tr ++ [.Debugf ("### " ++ fileInLib.relativePath ++ " result\n" ++ resultDocBytes)])

/-- The method `Eval`: the returned result or error, and the events. -/
def Eval {σ : Type} (E : Collaborators σ) (mapRange : List FileInLibrary → List FileInLibrary)
    (Root : Library) (files : List FileInLibrary)
    (values : DataValues) (libraryValues : List DataValues)
    (librarySchemas : List DocumentSchema) : Except Err EvalResult × List Event :=
  match eval E Root files values libraryValues librarySchemas with
  | (.error err, tr) => (.error err, tr)
  | (.ok (exports, docSets, outputFiles), tr) =>
    match E.PostProcess docSets with
    | .error err => (.error err, tr ++ [.PostProcess docSets])
    | .ok docSets1 =>
      assembleLoop E docSets1 (sortedOutputDocSets mapRange docSets1)
        { Files := outputFiles, DocSet := { Items := [] }, Exports := exports }
        (tr ++ [.PostProcess docSets])

/-! ### Vocabulary of the statements -/

/-- A file that `filesByAnnotation` selects: kind YAML, template-flagged, and
the non-evaluating parse yields at least one document with the annotation. -/
def matchesAnnotation {σ : Type} (E : Collaborators σ) (annName : AnnotationName)
    (fileInLib : FileInLibrary) : Bool :=
  decide (fileInLib.File.type = .TypeYAML) && fileInLib.File.isTemplate &&
    (match E.ParseYAML fileInLib.File with
     | .ok docSet =>
       match E.Extract annName docSet with
       | .ok (values, _) => decide (values.length > 0)
       | .error _ => false
     | .error _ => false)

/-- The write `fileInLib.File.MarkForOutput(false)`. -/
def markNotForOutput (fileInLib : FileInLibrary) : FileInLibrary :=
  { fileInLib with File := fileInLib.File.MarkForOutput false }

/-- The state of the loop of `eval` before the first file. -/
def initialEvalState {σ : Type} (E : Collaborators σ) (values : DataValues)
    (libraryValues : List DataValues) (librarySchemas : List DocumentSchema) : EvalState σ :=
  { loader := E.NewTemplateLoader values libraryValues librarySchemas,
    exports := [], docSets := [], outputFiles := [], trace := [] }

/-- The root-scoped schema documents of a list, in order. -/
def rootScoped (docs : List DocumentSchema) : List DocumentSchema :=
  docs.filter (fun d => !d.HasLibRef)

/-- The library-scoped schema documents of a list, in order. -/
def libraryScoped (docs : List DocumentSchema) : List DocumentSchema :=
  docs.filter (fun d => d.HasLibRef)

/-- The left fold of the overlay primitive over the sources of `rest`, with
`base` as the first accumulator; it stops at the first failing merge. -/
def overlayFold {σ : Type} (E : Collaborators σ) (base : Document) :
    List DocumentSchema → Except Err Document
  | [] => .ok base
  | d :: rest =>
    match E.overlay base d.Source with
    | .error err => .error err
    | .ok merged => overlayFold E merged rest

def sampleParse (file : File) : Except Err DocumentSet :=
  if file.relativePath = "schema.yml" then .ok { Items := [⟨"schema/match"⟩] }
  else .ok { Items := [⟨file.relativePath⟩] }

def sampleEngine : Collaborators (List String) :=
  { AnnotationSchemaMatch := "schema/match"
    AnnotationDataValues := "data/values"
    NewEmptyDataValues := { Desc := "empty", IsUsed := true }
    NewRootLibraryNil := { path := "" }
    NewTemplateLoader := fun _ _ _ => []
    ParseYAML := sampleParse
    Extract := fun annName docSet =>
      .ok (docSet.Items.filter (fun d => d.content = annName),
           docSet.Items.filter (fun d => d.content ≠ annName))
    EvalYAML := fun s _ file =>
      if file.relativePath = "bad.yml" then (.error (.message "bad.yml: evaluation failed"), s)
      else
        match sampleParse file with
        | .ok docSet => (.ok ([], docSet), s ++ [file.relativePath])
        | .error err => (.error err, s)
    EvalText := fun s _ file => (.ok ([], file.relativePath), s ++ [file.relativePath])
    EvalStarlark := fun s _ file =>
      (.ok [("greet", .string "hello")], s ++ [file.relativePath])
    NewDocumentSchema := fun d => .ok { Source := d, HasLibRef := false }
    overlay := fun base patch => .ok ⟨base.content ++ "+" ++ patch.content⟩
    PostProcess := fun docSets => .ok docSets
    AsBytes := fun docSet => .ok (String.join (docSet.Items.map (fun d => d.content)))
    ErrorString := fun err =>
      match err with
      | .message msg => msg
      | .assertion e => e.description
    derefLibraryValues := fun s libraryValues =>
      libraryValues.map (fun dv => { dv with IsUsed := dv.IsUsed || s.contains dv.Desc }) }

def sampleLibrary : Library := { path := "" }

def sampleYAML (name : String) : FileInLibrary :=
  { File := { relativePath := name, type := .TypeYAML, isTemplate := true,
              isForOutput := true, isLibrary := false },
    Library := sampleLibrary, relativePath := name }

def sampleText (name : String) : FileInLibrary :=
  { File := { relativePath := name, type := .TypeText, isTemplate := true,
              isForOutput := true, isLibrary := false },
    Library := sampleLibrary, relativePath := name }

def sampleValues : DataValues := { Desc := "values", IsUsed := true }

def sampleUnused : DataValues := { Desc := "lib@v1", IsUsed := false }

end Workspace

end Ytt

namespace Ytt.Schema

/-- A node annotated `schema/type any=True` and `schema/nullable` with a
keyword argument. -/
def sampleKeywordNullableNode : Node Nat :=
  { annotations := [(AnnotationType, ⟨[(.string "any", .bool true)]⟩),
                    (AnnotationNullable, ⟨[(.string "any", .bool true)]⟩)]
    values := [7]
    position := ⟨4⟩ }

/-- Keyword arguments `any=b` for the booleans of a list, in order. -/
def anyKwargs (bs : List Bool) : List (StarlarkValue × StarlarkValue) :=
  bs.map (fun b => (StarlarkValue.string TypeAnnotationKwargAny, StarlarkValue.bool b))

/-- The result of `convertAnnotationsToSingleType` if it did not reorder: nil
for the empty list, and what the first annotation resolves to otherwise. -/
def resolveFirst : List Annotation → Option YType
  | [] => none
  | first :: _ => first.NewTypeFromAnn

/-- Number of type annotations in a list. -/
def countType (anns : List Annotation) : Nat :=
  (anns.filter (fun a => match a with | .type _ => true | .nullable _ => false)).length

/-- Number of nullable annotations in a list. -/
def countNullable (anns : List Annotation) : Nat :=
  (anns.filter (fun a => match a with | .type _ => false | .nullable _ => true)).length

end Ytt.Schema

namespace Ytt.Workspace

/-! ### `Values` and further vocabulary -/

/-- The method `Values`.  `Apply` is `DataValuesPreProcessing.Apply` with its
fields as arguments (values files, overlays, schema, loader,
`IgnoreUnknownComments`); it lives outside the two files, and its own events
are not recorded. -/
def Values {σ : Type} (E : Collaborators σ)
    (Apply : List FileInLibrary → List DataValues → Schema → σ → Bool →
      Except Err (DataValues × List DataValues))
    (IgnoreUnknownComments : Bool) (files : List FileInLibrary)
    (valuesOverlays : List DataValues) (schema : Schema) :
    Run (DataValues × List DataValues) :=
  let loader := E.NewTemplateLoader E.NewEmptyDataValues [] []
  let found := valuesFiles E files
  match found.result with
  | .error err => { result := .error err, files := found.files, trace := found.trace }
  | .ok valuesFiles =>
    { result := Apply valuesFiles valuesOverlays schema loader IgnoreUnknownComments,
      files := found.files, trace := found.trace }

/-- A file that the loop of `eval` treats as exporting library file: not for
output, flagged as library, of kind YAML, text or Starlark. -/
def isLibraryExport (fileInLib : FileInLibrary) : Bool :=
  !fileInLib.File.isForOutput && fileInLib.File.isLibrary &&
    (decide (fileInLib.File.type = .TypeYAML) || decide (fileInLib.File.type = .TypeText)
      || decide (fileInLib.File.type = .TypeStarlark))

/-- A plain-text output file. -/
def isTextOutput (fileInLib : FileInLibrary) : Bool :=
  fileInLib.File.isForOutput && decide (fileInLib.File.type = .TypeText)

/-- The export of an exporting library file evaluated in loader state `s`:
its relative path with the globals the engine returns for it. -/
def exportOf {σ : Type} (E : Collaborators σ) (Root : Library) (s : σ)
    (fileInLib : FileInLibrary) : Option EvalExport :=
  if fileInLib.File.isForOutput = false ∧ fileInLib.File.isLibrary = true then
    match fileInLib.File.type with
    | .TypeYAML =>
      match (E.EvalYAML s { Current := fileInLib.Library, Root := Root } fileInLib.File).1 with
      | .ok (globals, _) => some { Path := fileInLib.relativePath, Symbols := globals }
      | .error _ => none
    | .TypeText =>
      match (E.EvalText s { Current := fileInLib.Library, Root := Root } fileInLib.File).1 with
      | .ok (globals, _) => some { Path := fileInLib.relativePath, Symbols := globals }
      | .error _ => none
    | .TypeStarlark =>
      match (E.EvalStarlark s { Current := fileInLib.Library, Root := Root } fileInLib.File).1 with
      | .ok globals => some { Path := fileInLib.relativePath, Symbols := globals }
      | .error _ => none
    | .TypeUnknown => none
  else none

/-- The loader state after the iteration of the loop of `eval` for a file
that starts in loader state `s`. -/
def loaderAfter {σ : Type} (E : Collaborators σ) (Root : Library) (s : σ)
    (fileInLib : FileInLibrary) : σ :=
  (evalFile E Root
    { loader := s, exports := [], docSets := [], outputFiles := [], trace := [] } fileInLib).2.loader

/-- The exports of the exporting library files of a list, in order, each file
evaluated in the loader state the files before it leave. -/
def expectedExports {σ : Type} (E : Collaborators σ) (Root : Library) :
    List FileInLibrary → σ → List EvalExport
  | [], _ => []
  | fileInLib :: rest, s =>
    (exportOf E Root s fileInLib).toList
      ++ expectedExports E Root rest (loaderAfter E Root s fileInLib)

/-- The documents of a file in a map of document sets. -/
def docsOfFile (docSets : DocSets) (fileInLib : FileInLibrary) : List Document :=
  match docSets.lookup fileInLib with
  | some docSet => docSet.Items
  | none => []

/-- The output file of a file of the map: its serialized document set under
the file's relative path. -/
def yamlOutputFile {σ : Type} (E : Collaborators σ) (docSets : DocSets)
    (fileInLib : FileInLibrary) : Option OutputFile :=
  match docSets.lookup fileInLib with
  | some docSet =>
    match E.AsBytes docSet with
    | .ok resultDocBytes =>
      some (NewOutputFile fileInLib.relativePath resultDocBytes fileInLib.File.type)
    | .error _ => none
  | none => none

/-- The files after discovery: the selected ones marked not for output, the
others as they were. -/
def afterDiscovery {σ : Type} (E : Collaborators σ) (annName : Schema.AnnotationName)
    (files : List FileInLibrary) : List FileInLibrary :=
  files.map (fun f => if matchesAnnotation E annName f then markNotForOutput f else f)

/-! ### Further sample inputs -/

/-- A Starlark library file. -/
def sampleStarlarkLib (name : String) : FileInLibrary :=
  { File := { relativePath := name, type := .TypeStarlark, isTemplate := false,
              isForOutput := false, isLibrary := true },
    Library := sampleLibrary, relativePath := name }

/-- A Starlark file flagged both for output and as library. -/
def sampleStarlarkOutput (name : String) : FileInLibrary :=
  { File := { relativePath := name, type := .TypeStarlark, isTemplate := false,
              isForOutput := true, isLibrary := true },
    Library := sampleLibrary, relativePath := name }

/-- A YAML template that is also flagged as library. -/
def sampleYAMLLib (name : String) : FileInLibrary :=
  { File := { relativePath := name, type := .TypeYAML, isTemplate := true,
              isForOutput := true, isLibrary := true },
    Library := sampleLibrary, relativePath := name }

/-- A values pipeline that returns fixed values. -/
def sampleApply (_valuesFiles : List FileInLibrary) (_overlays : List DataValues)
    (_schema : Schema) (_loader : List String) (_ignore : Bool) :
    Except Err (DataValues × List DataValues) :=
  .ok (sampleValues, [])

end Ytt.Workspace

namespace Ytt.Workspace

/-- A YAML output file. -/
def isYamlOutput (fileInLib : FileInLibrary) : Bool :=
  fileInLib.File.isForOutput && decide (fileInLib.File.type = .TypeYAML)

end Ytt.Workspace

namespace Ytt.Workspace

/-- The merge events of the left fold of the overlay primitive over the
sources of `rest` with `base` as first accumulator, up to the first failing
merge. -/
def overlayFoldEvents {σ : Type} (E : Collaborators σ) (base : Document) :
    List DocumentSchema → List Event
  | [] => []
  | d :: rest =>
    Event.overlay base d.Source ::
      (match E.overlay base d.Source with
       | .ok merged => overlayFoldEvents E merged rest
       | .error _ => [])

end Ytt.Workspace

namespace Ytt.Schema

/-! ### The caller's slice

Go slices share their backing array with the caller, and `sort.Slice` swaps
in place.  To state what a call does to the slice it is given, memory is
made explicit: a heap of backing arrays, addressed by position. -/

/-- The backing arrays of the annotation slices in memory, by address. -/
structure SliceHeap where
  arrays : List (List Annotation)
  deriving DecidableEq, Repr

/-- The slice stored at an address (empty where nothing is allocated). -/
def SliceHeap.read (h : SliceHeap) (addr : Nat) : List Annotation :=
  (h.arrays.get? addr).getD []

/-- Allocation of a fresh backing array holding `xs`: the heap afterwards and
the new address. -/
def SliceHeap.alloc (h : SliceHeap) (xs : List Annotation) : SliceHeap × Nat :=
  ({ arrays := h.arrays ++ [xs] }, h.arrays.length)

/-- In-place update of the array at an address. -/
def SliceHeap.write (h : SliceHeap) (addr : Nat) (xs : List Annotation) : SliceHeap :=
  { arrays := h.arrays.set addr xs }

/-- The function `convertAnnotationsToSingleType` on a heap, called with the
address of the caller's slice: `append([]Annotation{}, anns...)` allocates a
fresh array for `annsCopy`, and `sort.Slice(annsCopy, ...)` writes to that
array.  Returns the result and the heap afterwards. -/
def convertAnnotationsToSingleTypeInMemory (h : SliceHeap) (anns : Nat) :
    Option YType × SliceHeap :=
  let allocated := h.alloc ([] ++ h.read anns)
  let h1 := allocated.1
  let annsCopy := allocated.2
  if (h1.read annsCopy).length = 0 then
    (none, h1)
  else
    let h2 := h1.write annsCopy (sortSlice preferAnyTypeOverNullableType (h1.read annsCopy))
    ((match (h2.read annsCopy).get? 0 with
      | some first => first.NewTypeFromAnn
      | none => none), h2)

end Ytt.Schema

/-! # Theorems -/

namespace Ytt.Schema

/-! ## Keyword arguments of `schema/type` -/

theorem typeKwargsLoop_ok_iff (pos : Position) (kws : List (StarlarkValue × StarlarkValue))
    (ta : TypeAnnotation) :
    (∃ r, typeKwargsLoop pos kws ta = .ok r) ↔
      ∀ kw ∈ kws, ∃ b, kw = (StarlarkValue.string TypeAnnotationKwargAny, StarlarkValue.bool b) := by
  induction kws generalizing ta with
  | nil => simp [typeKwargsLoop]
  | cons kw rest ih =>
    obtain ⟨name, value⟩ := kw
    cases name <;> cases value <;>
      simp [typeKwargsLoop, StarlarkValue.AsString, StarlarkValue.AsBool, ih]
    all_goals (try split) <;> simp_all

theorem typeKwargsLoop_cons_any (pos : Position) (b : Bool)
    (rest : List (StarlarkValue × StarlarkValue)) (ta : TypeAnnotation) :
    typeKwargsLoop pos ((StarlarkValue.string TypeAnnotationKwargAny, StarlarkValue.bool b) :: rest) ta
      = typeKwargsLoop pos rest { ta with any := b } := by
  simp [typeKwargsLoop, StarlarkValue.AsString, StarlarkValue.AsBool]

theorem typeKwargsLoop_position (pos : Position) (kws : List (StarlarkValue × StarlarkValue))
    (ta r : TypeAnnotation) (h : typeKwargsLoop pos kws ta = .ok r) :
    r.itemPosition = ta.itemPosition := by
  have hall := (typeKwargsLoop_ok_iff pos kws ta).1 ⟨r, h⟩
  induction kws generalizing ta with
  | nil => simp [typeKwargsLoop] at h; rw [← h]
  | cons kw rest ih =>
    obtain ⟨b, rfl⟩ := hall kw (List.mem_cons_self _ _)
    rw [typeKwargsLoop_cons_any] at h
    exact ih { ta with any := b } h (fun kw hk => hall kw (List.mem_cons_of_mem _ hk))

theorem typeKwargsLoop_last (pos : Position) (kws : List (StarlarkValue × StarlarkValue))
    (ta r : TypeAnnotation) (h : typeKwargsLoop pos kws ta = .ok r)
    (name value : StarlarkValue) (hl : kws.getLast? = some (name, value)) :
    value = StarlarkValue.bool r.any := by
  have hall := (typeKwargsLoop_ok_iff pos kws ta).1 ⟨r, h⟩
  induction kws generalizing ta with
  | nil => simp at hl
  | cons kw rest ih =>
    obtain ⟨b, rfl⟩ := hall _ (List.mem_cons_self _ _)
    rw [typeKwargsLoop_cons_any] at h
    cases rest with
    | nil =>
      simp at hl
      simp [typeKwargsLoop] at h
      rw [← hl.2, ← h]
    | cons kw2 rest2 =>
      have hl2 : (kw2 :: rest2).getLast? = some (name, value) := by
        simpa [List.getLast?_cons_cons] using hl
      exact ih _ h hl2 (fun kw hk => hall kw (List.mem_cons_of_mem _ hk))

theorem NewTypeAnnotation_position (ann : NodeAnnotation) (pos : Position) (r : TypeAnnotation)
    (h : NewTypeAnnotation ann pos = .ok r) : r.itemPosition = pos := by
  unfold NewTypeAnnotation at h
  split at h
  · contradiction
  · exact typeKwargsLoop_position pos _ _ r h

/-! ## Shape of the collected annotations -/

theorem processOptionalAnnotation_type {Val : Type}
    (f : Val → Position → Except Err YType) (node : Node Val) :
    processOptionalAnnotation f node AnnotationType =
      match node.annotations.lookup AnnotationType with
      | none => .returned (.ok none)
      | some ann =>
        match NewTypeAnnotation ann node.position with
        | .error err => .returned (.error err)
        | .ok typeAnn => .returned (.ok (some (.type typeAnn))) := by
  have hne : ¬ (AnnotationType = AnnotationNullable) := by decide
  unfold processOptionalAnnotation
  cases node.annotations.lookup AnnotationType with
  | none => rfl
  | some ann => simp only [hne, if_false, if_true]

theorem processOptionalAnnotation_nullable {Val : Type}
    (f : Val → Position → Except Err YType) (node : Node Val) :
    processOptionalAnnotation f node AnnotationNullable =
      match node.annotations.lookup AnnotationNullable with
      | none => .returned (.ok none)
      | some ann =>
        match node.values with
        | [] => .indexOutOfRange
        | v0 :: _ =>
          match f v0 node.position with
          | .error err => .returned (.error err)
          | .ok wrappedValueType =>
            match NewNullableAnnotation ann wrappedValueType node.position with
            | .error err => .returned (.error err)
            | .ok nullAnn => .returned (.ok (some (.nullable nullAnn))) := by
  unfold processOptionalAnnotation
  cases node.annotations.lookup AnnotationNullable with
  | none => rfl
  | some ann => simp only [if_true]

theorem processOptionalAnnotation_type_ok {Val : Type}
    (f : Val → Position → Except Err YType) (node : Node Val) (r : Option Annotation)
    (h : processOptionalAnnotation f node AnnotationType = .returned (.ok r)) :
    r = none ∨ ∃ b, r = some ( Annotation.type ⟨b, node.position⟩) := by
  rw [processOptionalAnnotation_type] at h
  cases hlook : node.annotations.lookup AnnotationType with
  | none => simp only [hlook, Outcome.returned.injEq, Except.ok.injEq] at h; exact Or.inl h.symm
  | some ann =>
    simp only [hlook] at h
    cases hta : NewTypeAnnotation ann node.position with
    | error e => simp [hta] at h
    | ok ta =>
      simp only [hta, Outcome.returned.injEq, Except.ok.injEq] at h
      have hpos := NewTypeAnnotation_position ann node.position ta hta
      refine Or.inr ⟨ta.any, ?_⟩
      rw [← h, ← hpos]

theorem processOptionalAnnotation_nullable_ok {Val : Type}
    (f : Val → Position → Except Err YType) (node : Node Val) (r : Option Annotation)
    (h : processOptionalAnnotation f node AnnotationNullable = .returned (.ok r)) :
    r = none ∨ ∃ t, r = some ( Annotation.nullable ⟨t, node.position⟩) := by
  rw [processOptionalAnnotation_nullable] at h
  cases hlook : node.annotations.lookup AnnotationNullable with
  | none => simp only [hlook, Outcome.returned.injEq, Except.ok.injEq] at h; exact Or.inl h.symm
  | some ann =>
    simp only [hlook] at h
    cases hv : node.values with
    | nil => simp [hv] at h
    | cons v0 vs =>
      simp only [hv] at h
      cases hf : f v0 node.position with
      | error e => simp [hf] at h
      | ok t =>
        simp only [hf] at h
        unfold NewNullableAnnotation at h
        by_cases hkw : ann.Kwargs.length ≠ 0
        · simp [hkw] at h
        · simp only [hkw, if_false, Outcome.returned.injEq, Except.ok.injEq] at h
          exact Or.inr ⟨t, h.symm⟩

/-- The lists `collectAnnotations` returns: at most one type annotation,
followed by at most one nullable annotation, both at the node's position. -/
theorem collectAnnotations_shape {Val : Type}
    (f : Val → Position → Except Err YType) (node : Node Val) (anns : List Annotation)
    (h : collectAnnotations f node = .returned (.ok anns)) :
    ∃ (ts : Option Bool) (ns : Option YType),
      anns = ts.toList.map (fun b => Annotation.type ⟨b, node.position⟩)
        ++ ns.toList.map (fun t => Annotation.nullable ⟨t, node.position⟩) := by
  unfold collectAnnotations at h
  simp only [collectLoop] at h
  cases hT : processOptionalAnnotation f node AnnotationType with
  | indexOutOfRange => simp [hT] at h
  | returned rT =>
    cases rT with
    | error e => simp [hT] at h
    | ok oT =>
      cases hN : processOptionalAnnotation f node AnnotationNullable with
      | indexOutOfRange => cases oT <;> simp [hT, hN] at h
      | returned rN =>
        cases rN with
        | error e => cases oT <;> simp [hT, hN] at h
        | ok oN =>
          rcases processOptionalAnnotation_type_ok f node oT hT with rfl | ⟨b, rfl⟩ <;>
            rcases processOptionalAnnotation_nullable_ok f node oN hN with rfl | ⟨t, rfl⟩ <;>
            simp only [hT, hN, Outcome.returned.injEq, Except.ok.injEq] at h
          · exact ⟨none, none, by simp [← h]⟩
          · exact ⟨none, some t, by simp [← h]⟩
          · exact ⟨some b, none, by simp [← h]⟩
          · exact ⟨some b, some t, by simp [← h]⟩

/-! ## Resolution of the collected annotations -/

/-- C1: for every node whose collected annotations contain a type annotation
with any=True, the collected list is `[Type(any=True)]` or
`[Type(any=True), Nullable(t)]`, and `convertAnnotationsToSingleType` returns
`AnyType` at the node's position (so neither a `NullType` nor nil); the same
holds for these two lists for every position and every wrapped type. -/
theorem convertAnnotationsToSingleType_any_wins {Val : Type}
    (f : Val → Position → Except Err YType) (node : Node Val) (anns : List Annotation)
    (hcollect : collectAnnotations f node = .returned (.ok anns))
    (hany : ∃ typeAnn, Annotation.type typeAnn ∈ anns ∧ typeAnn.IsAny = true) :
    (anns = [ Annotation.type ⟨true, node.position⟩] ∨
      ∃ t, anns = [ Annotation.type ⟨true, node.position⟩,
                   Annotation.nullable ⟨t, node.position⟩]) ∧
    convertAnnotationsToSingleType anns = some (YType.AnyType node.position) ∧
    (∀ (pos npos : Position) (t : YType),
      convertAnnotationsToSingleType [ Annotation.type ⟨true, pos⟩] = some (YType.AnyType pos) ∧
      convertAnnotationsToSingleType
        [ Annotation.type ⟨true, pos⟩, Annotation.nullable ⟨t, npos⟩] = some (YType.AnyType pos)) := by
  obtain ⟨ts, ns, rfl⟩ := collectAnnotations_shape f node anns hcollect
  obtain ⟨typeAnn, hmem, hIsAny⟩ := hany
  refine ⟨?_, ?_, fun pos npos t => ⟨rfl, rfl⟩⟩
  · cases ts with
    | none => cases ns <;> simp at hmem
    | some b =>
      have hb : b = true := by
        cases ns <;> simp at hmem <;> subst hmem <;> exact hIsAny
      subst hb
      cases ns with
      | none => exact Or.inl rfl
      | some t => exact Or.inr ⟨t, rfl⟩
  · cases ts with
    | none => cases ns <;> simp at hmem
    | some b =>
      have hb : b = true := by
        cases ns <;> simp at hmem <;> subst hmem <;> exact hIsAny
      subst hb
      cases ns <;> rfl

/-- C2: for the list `[Type(any=False), Nullable(t)]` the reordering leaves the
type annotation first, and `convertAnnotationsToSingleType` returns what the
type annotation resolves to, which is nil: the nullable annotation is not
consulted. -/
theorem convertAnnotationsToSingleType_notAny_shadows_nullable
    (pos npos : Position) (t : YType) :
    sortSlice preferAnyTypeOverNullableType
        [ Annotation.type ⟨false, pos⟩, Annotation.nullable ⟨t, npos⟩]
      = [ Annotation.type ⟨false, pos⟩, Annotation.nullable ⟨t, npos⟩] ∧
    convertAnnotationsToSingleType [ Annotation.type ⟨false, pos⟩, Annotation.nullable ⟨t, npos⟩]
      = ( Annotation.type ⟨false, pos⟩).NewTypeFromAnn ∧
    convertAnnotationsToSingleType [ Annotation.type ⟨false, pos⟩, Annotation.nullable ⟨t, npos⟩]
      = none ∧
    convertAnnotationsToSingleType [ Annotation.type ⟨false, pos⟩, Annotation.nullable ⟨t, npos⟩]
      ≠ ( Annotation.nullable ⟨t, npos⟩).NewTypeFromAnn :=
  ⟨rfl, rfl, rfl, by simp [convertAnnotationsToSingleType, sortSlice, insertionLoop, insertDown,
    preferAnyTypeOverNullableType, TypeAnnotation.IsAny, Annotation.NewTypeFromAnn,
    TypeAnnotation.NewTypeFromAnn, NullableAnnotation.NewTypeFromAnn]⟩

/-- C3: for every node that carries a nullable annotation without keyword
arguments and no type annotation, and whose first child value has the
computable type `t`, `collectAnnotations` returns the single nullable
annotation and `convertAnnotationsToSingleType` returns `NullType` with value
type `t` at the node's position. -/
theorem nullable_only_resolves_to_NullType {Val : Type}
    (f : Val → Position → Except Err YType) (node : Node Val)
    (ann : NodeAnnotation) (v0 : Val) (vs : List Val) (t : YType)
    (hnotype : node.annotations.lookup AnnotationType = none)
    (hnullable : node.annotations.lookup AnnotationNullable = some ann)
    (hkwargs : ann.Kwargs = [])
    (hvalues : node.values = v0 :: vs)
    (htype : f v0 node.position = .ok t) :
    ∃ anns, collectAnnotations f node = .returned (.ok anns) ∧
      anns = [ Annotation.nullable ⟨t, node.position⟩] ∧
      convertAnnotationsToSingleType anns = some (YType.NullType t node.position) := by
  refine ⟨[ Annotation.nullable ⟨t, node.position⟩], ?_, rfl, rfl⟩
  unfold collectAnnotations
  simp only [collectLoop, processOptionalAnnotation_type, processOptionalAnnotation_nullable,
    hnotype, hnullable, hvalues, htype, NewNullableAnnotation, hkwargs]
  rfl

/-- C10: `NewTypeAnnotation` succeeds exactly when there is at least one
keyword argument and every keyword argument is `any=<bool>`; on success the
annotation has the given position and `IsAny()` is the boolean of the last
keyword argument; with no keyword argument, or with one that is not
`any=<bool>`, it returns an error (and no annotation). -/
theorem NewTypeAnnotation_succeeds_iff (ann : NodeAnnotation) (pos : Position) :
    ((∃ typeAnn, NewTypeAnnotation ann pos = .ok typeAnn) ↔
      (ann.Kwargs ≠ [] ∧
        ∀ kwarg ∈ ann.Kwargs, ∃ b, kwarg = (StarlarkValue.string "any", StarlarkValue.bool b))) ∧
    (∀ typeAnn, NewTypeAnnotation ann pos = .ok typeAnn →
      typeAnn.itemPosition = pos ∧
      ann.Kwargs.getLast? = some (StarlarkValue.string "any", StarlarkValue.bool typeAnn.IsAny)) ∧
    ((ann.Kwargs = [] ∨
        ∃ kwarg ∈ ann.Kwargs, ∀ b, kwarg ≠ (StarlarkValue.string "any", StarlarkValue.bool b)) →
      ∃ err, NewTypeAnnotation ann pos = .error err) := by
  have hiff : (∃ typeAnn, NewTypeAnnotation ann pos = .ok typeAnn) ↔
      (ann.Kwargs ≠ [] ∧
        ∀ kwarg ∈ ann.Kwargs, ∃ b, kwarg = (StarlarkValue.string "any", StarlarkValue.bool b)) := by
    unfold NewTypeAnnotation
    by_cases hlen : ann.Kwargs.length = 0
    · have hnil : ann.Kwargs = [] := List.length_eq_zero.mp hlen
      simp [hlen, hnil]
    · have hne : ann.Kwargs ≠ [] := fun hnil => hlen (by simp [hnil])
      simp only [hlen, if_false, hne, ne_eq, not_false_eq_true, true_and]
      exact typeKwargsLoop_ok_iff pos ann.Kwargs _
  refine ⟨hiff, ?_, ?_⟩
  · intro typeAnn hok
    refine ⟨NewTypeAnnotation_position ann pos typeAnn hok, ?_⟩
    obtain ⟨hne, hall⟩ := hiff.1 ⟨typeAnn, hok⟩
    have hlast : ∃ kw, ann.Kwargs.getLast? = some kw ∧ kw ∈ ann.Kwargs := by
      refine ⟨ann.Kwargs.getLast hne, List.getLast?_eq_getLast _ hne, List.getLast_mem hne⟩
    obtain ⟨kw, hkw, hmem⟩ := hlast
    obtain ⟨b, rfl⟩ := hall kw hmem
    unfold NewTypeAnnotation at hok
    have hlen : ¬ ann.Kwargs.length = 0 := fun h => hne (List.length_eq_zero.mp h)
    simp only [hlen, if_false] at hok
    have := typeKwargsLoop_last pos ann.Kwargs _ typeAnn hok _ _ hkw
    rw [hkw, this]
    rfl
  · intro hbad
    cases hres : NewTypeAnnotation ann pos with
    | error err => exact ⟨err, rfl⟩
    | ok typeAnn =>
      exfalso
      obtain ⟨hne, hall⟩ := hiff.1 ⟨typeAnn, hres⟩
      rcases hbad with hnil | ⟨kw, hmem, hno⟩
      · exact hne hnil
      · obtain ⟨b, hb⟩ := hall kw hmem
        exact hno b hb

/-! ## Instances on sample nodes -/

theorem convertAnnotationsToSingleType_any_wins_witness :
    collectAnnotations sampleItemType sampleAnyNode
      = .returned (.ok [ Annotation.type ⟨true, ⟨4⟩⟩, Annotation.nullable ⟨.other 7, ⟨4⟩⟩]) ∧
    convertAnnotationsToSingleType
        [ Annotation.type ⟨true, ⟨4⟩⟩, Annotation.nullable ⟨.other 7, ⟨4⟩⟩]
      = some (YType.AnyType ⟨4⟩) :=
  ⟨rfl, (convertAnnotationsToSingleType_any_wins sampleItemType sampleAnyNode
      [ Annotation.type ⟨true, ⟨4⟩⟩, Annotation.nullable ⟨.other 7, ⟨4⟩⟩] rfl
      ⟨⟨true, ⟨4⟩⟩, by simp, rfl⟩).2.1⟩

theorem nullable_only_resolves_to_NullType_witness :
    ∃ anns, collectAnnotations sampleItemType sampleNullableNode = .returned (.ok anns) ∧
      anns = [ Annotation.nullable ⟨.other 7, ⟨4⟩⟩] ∧
      convertAnnotationsToSingleType anns = some (YType.NullType (.other 7) ⟨4⟩) :=
  nullable_only_resolves_to_NullType sampleItemType sampleNullableNode ⟨[]⟩ 7 [] (.other 7)
    rfl rfl rfl rfl rfl

theorem NewTypeAnnotation_succeeds_iff_witness :
    (∃ typeAnn, NewTypeAnnotation
        ⟨[(.string "any", .bool true), (.string "any", .bool false)]⟩ ⟨4⟩ = .ok typeAnn) ∧
    (∃ err, NewTypeAnnotation ⟨[(.string "any", .int 1)]⟩ ⟨4⟩ = .error err) :=
  ⟨(NewTypeAnnotation_succeeds_iff
      ⟨[(.string "any", .bool true), (.string "any", .bool false)]⟩ ⟨4⟩).1.2
      ⟨by simp, by simp⟩,
   (NewTypeAnnotation_succeeds_iff ⟨[(.string "any", .int 1)]⟩ ⟨4⟩).2.2
      (Or.inr ⟨_, List.mem_cons_self _ _, by simp⟩)⟩

end Ytt.Schema

namespace Ytt.Workspace

/-! ## The per-file pass of `eval` -/

theorem evalLoop_append {σ : Type} (E : Collaborators σ) (Root : Library)
    (pre rest : List FileInLibrary) (st : EvalState σ) :
    evalLoop E Root (pre ++ rest) st =
      match evalLoop E Root pre st with
      | (some err, st1) => (some err, st1)
      | (none, st1) => evalLoop E Root rest st1 := by
  induction pre generalizing st with
  | nil => simp [evalLoop]
  | cons f pre ih =>
    rcases hstep : evalFile E Root st f with ⟨_ | err, st1⟩
    · simp only [List.cons_append, evalLoop, hstep]
      exact ih st1
    · simp only [List.cons_append, evalLoop, hstep]

/-- The loop ends with an error exactly at a first file whose iteration
fails. -/
theorem evalLoop_error_split {σ : Type} (E : Collaborators σ) (Root : Library)
    (files : List FileInLibrary) (st st1 : EvalState σ) (err : Err)
    (h : evalLoop E Root files st = (some err, st1)) :
    ∃ pre f post st0, files = pre ++ f :: post ∧
      evalLoop E Root pre st = (none, st0) ∧ evalFile E Root st0 f = (some err, st1) := by
  induction files generalizing st with
  | nil => simp [evalLoop] at h
  | cons f rest ih =>
    simp only [evalLoop] at h
    rcases hstep : evalFile E Root st f with ⟨_ | e, st2⟩
    · rw [hstep] at h
      obtain ⟨pre, g, post, st0, hfiles, hpre, hg⟩ := ih st2 h
      refine ⟨f :: pre, g, post, st0, by simp [hfiles], ?_, hg⟩
      simp only [evalLoop, hstep, hpre]
    · rw [hstep] at h
      simp only [Prod.mk.injEq, Option.some.injEq] at h
      obtain ⟨rfl, rfl⟩ := h
      exact ⟨[], f, rest, st, rfl, rfl, hstep⟩

/-- An iteration of the loop adds only evaluation calls and debug output to
the events. -/
theorem evalFile_trace {σ : Type} (E : Collaborators σ) (Root : Library) (st : EvalState σ)
    (f : FileInLibrary) :
    ∃ added, (evalFile E Root st f).2.trace = st.trace ++ added ∧
      ∀ ev ∈ added, ∀ m, ev ≠ Event.PostProcess m := by
  simp only [evalFile]
  repeat' split
  all_goals first
    | exact ⟨_, rfl, by simp⟩
    | exact ⟨[], by simp, by simp⟩

theorem evalLoop_trace {σ : Type} (E : Collaborators σ) (Root : Library)
    (files : List FileInLibrary) (st : EvalState σ) :
    ∃ added, (evalLoop E Root files st).2.trace = st.trace ++ added ∧
      ∀ ev ∈ added, ∀ m, ev ≠ Event.PostProcess m := by
  induction files generalizing st with
  | nil => exact ⟨[], by simp [evalLoop], by simp⟩
  | cons f rest ih =>
    obtain ⟨a1, h1, hn1⟩ := evalFile_trace E Root st f
    simp only [evalLoop]
    rcases hstep : evalFile E Root st f with ⟨_ | e, st2⟩
    · rw [hstep] at h1
      obtain ⟨a2, h2, hn2⟩ := ih st2
      refine ⟨a1 ++ a2, ?_, ?_⟩
      · simp only at h1 ⊢
        rw [h2, h1, List.append_assoc]
      · intro ev hev
        rcases List.mem_append.1 hev with h | h
        · exact hn1 ev h
        · exact hn2 ev h
    · rw [hstep] at h1
      exact ⟨a1, h1, hn1⟩

theorem eval_of_loop {σ : Type} (E : Collaborators σ) (Root : Library)
    (files : List FileInLibrary) (values : DataValues) (libraryValues : List DataValues)
    (librarySchemas : List DocumentSchema) :
    eval E Root files values libraryValues librarySchemas =
      match evalLoop E Root files (initialEvalState E values libraryValues librarySchemas) with
      | (some err, st) => (.error err, st.trace)
      | (none, st) =>
        match checkUnusedDVs (E.derefLibraryValues st.loader libraryValues) with
        | some msg => (.error (.message msg), st.trace)
        | none => (.ok (st.exports, st.docSets, st.outputFiles), st.trace) := rfl

/-! ## Errors of `Eval` -/

/-- C4: if the files before `f` evaluate without error and the iteration for
`f` fails with `err` (an evaluation error of the engine, or the unknown file
type of an output file), then the loop stops at `f` and `Eval` returns `err`
and no result, with no event after the failure, whatever the used flags of
the library values are: the unused-values check is reached only when the
loop has ended without error for every file. -/
theorem Eval_returns_first_file_error {σ : Type} (E : Collaborators σ)
    (mapRange : List FileInLibrary → List FileInLibrary) (Root : Library)
    (pre : List FileInLibrary) (f : FileInLibrary) (post : List FileInLibrary)
    (values : DataValues) (libraryValues : List DataValues)
    (librarySchemas : List DocumentSchema) (st st1 : EvalState σ) (err : Err)
    (hpre : evalLoop E Root pre (initialEvalState E values libraryValues librarySchemas)
      = (none, st))
    (hfail : evalFile E Root st f = (some err, st1)) :
    evalLoop E Root (pre ++ f :: post) (initialEvalState E values libraryValues librarySchemas)
      = (some err, st1) ∧
    Eval E mapRange Root (pre ++ f :: post) values libraryValues librarySchemas
      = (.error err, st1.trace) := by
  have hloop : evalLoop E Root (pre ++ f :: post)
      (initialEvalState E values libraryValues librarySchemas) = (some err, st1) := by
    rw [evalLoop_append, hpre]
    simp only [evalLoop, hfail]
  refine ⟨hloop, ?_⟩
  unfold Eval
  rw [eval_of_loop, hloop]

/-- C5: `checkUnusedDVs` returns an error exactly when some entry is unused;
the message lists the descriptions of the unused entries, and only those, in
the order of `libraryValues`, joined by ", ".  When the loop of `eval` ends
without error and the check fails, `Eval` returns that error and no result,
and overlay post-processing has not run. -/
theorem checkUnusedDVs_reports_unused {σ : Type} (E : Collaborators σ)
    (mapRange : List FileInLibrary → List FileInLibrary) (Root : Library)
    (files : List FileInLibrary) (values : DataValues) (libraryValues : List DataValues)
    (librarySchemas : List DocumentSchema) :
    ((checkUnusedDVs libraryValues).isSome ↔ ∃ dv ∈ libraryValues, dv.IsUsed = false) ∧
    (∀ msg, checkUnusedDVs libraryValues = some msg →
      msg = "Expected all provided library data values documents to be used but found unused: "
        ++ ", ".intercalate
            ((libraryValues.filter (fun dv => dv.IsUsed = false)).map (fun dv => dv.Desc))) ∧
    (∀ st msg,
      evalLoop E Root files (initialEvalState E values libraryValues librarySchemas)
        = (none, st) →
      checkUnusedDVs (E.derefLibraryValues st.loader libraryValues) = some msg →
      Eval E mapRange Root files values libraryValues librarySchemas
        = (.error (.message msg), st.trace) ∧
      ∀ m, Event.PostProcess m ∉ st.trace) := by
  have hfilter : libraryValues.filter (fun dv => !dv.IsUsed)
      = libraryValues.filter (fun dv => decide (dv.IsUsed = false)) := by
    congr 1
    funext dv
    cases dv.IsUsed <;> rfl
  refine ⟨?_, ?_, ?_⟩
  · unfold checkUnusedDVs
    simp only [List.length_map, hfilter]
    split
    · rename_i hlen
      rw [List.length_eq_zero] at hlen
      constructor
      · intro h
        simp at h
      · rintro ⟨dv, hdv, hunused⟩
        have hmem : dv ∈ libraryValues.filter (fun dv => decide (dv.IsUsed = false)) :=
          List.mem_filter.2 ⟨hdv, by simpa using hunused⟩
        rw [hlen] at hmem
        simp at hmem
    · rename_i hlen
      constructor
      · intro _
        by_contra hno
        apply hlen
        rw [List.length_eq_zero, List.filter_eq_nil_iff]
        intro dv hdv hd
        exact hno ⟨dv, hdv, by simpa using hd⟩
      · intro _
        rfl
  · intro msg hmsg
    unfold checkUnusedDVs at hmsg
    simp only [hfilter] at hmsg
    split at hmsg
    · contradiction
    · simp only [Option.some.injEq] at hmsg
      rw [← hmsg]
      rfl
  · intro st msg hloop hcheck
    constructor
    · unfold Eval
      rw [eval_of_loop, hloop]
      simp only [hcheck]
    · obtain ⟨added, htrace, hadded⟩ := evalLoop_trace E Root files
        (initialEvalState E values libraryValues librarySchemas)
      rw [hloop] at htrace
      simp only [initialEvalState, List.nil_append] at htrace
      intro m hm
      rw [htrace] at hm
      exact hadded _ hm m rfl

theorem Eval_returns_first_file_error_witness :
    Eval sampleEngine id sampleLibrary ([sampleYAML "a.yml"] ++ sampleYAML "bad.yml" :: [])
        sampleValues [sampleUnused] []
      = (.error (.message "bad.yml: evaluation failed"),
         [.EvalYAML ⟨sampleLibrary, sampleLibrary⟩ (sampleYAML "a.yml").File,
          .EvalYAML ⟨sampleLibrary, sampleLibrary⟩ (sampleYAML "bad.yml").File]) :=
  (Eval_returns_first_file_error sampleEngine id sampleLibrary [sampleYAML "a.yml"]
    (sampleYAML "bad.yml") [] sampleValues [sampleUnused] []
    { loader := ["a.yml"], exports := [],
      docSets := [(sampleYAML "a.yml", { Items := [⟨"a.yml"⟩] })], outputFiles := [],
      trace := [.EvalYAML ⟨sampleLibrary, sampleLibrary⟩ (sampleYAML "a.yml").File] }
    { loader := ["a.yml"], exports := [],
      docSets := [(sampleYAML "a.yml", { Items := [⟨"a.yml"⟩] })], outputFiles := [],
      trace := [.EvalYAML ⟨sampleLibrary, sampleLibrary⟩ (sampleYAML "a.yml").File,
                .EvalYAML ⟨sampleLibrary, sampleLibrary⟩ (sampleYAML "bad.yml").File] }
    (.message "bad.yml: evaluation failed") rfl rfl).2

theorem checkUnusedDVs_reports_unused_witness :
    Eval sampleEngine id sampleLibrary [sampleYAML "a.yml"] sampleValues
        [sampleUnused, ⟨"a.yml", false⟩] []
      = (.error (.message
          "Expected all provided library data values documents to be used but found unused: lib@v1"),
         [.EvalYAML ⟨sampleLibrary, sampleLibrary⟩ (sampleYAML "a.yml").File]) :=
  ((checkUnusedDVs_reports_unused sampleEngine id sampleLibrary [sampleYAML "a.yml"] sampleValues
      [sampleUnused, ⟨"a.yml", false⟩] []).2.2
    { loader := ["a.yml"], exports := [],
      docSets := [(sampleYAML "a.yml", { Items := [⟨"a.yml"⟩] })], outputFiles := [],
      trace := [.EvalYAML ⟨sampleLibrary, sampleLibrary⟩ (sampleYAML "a.yml").File] }
    "Expected all provided library data values documents to be used but found unused: lib@v1"
    rfl rfl).1

/-! ## Discovery of schema files -/

theorem filesByAnnotationLoop_result {σ : Type} (E : Collaborators σ) (annName : Schema.AnnotationName)
    (files acc r : List FileInLibrary)
    (h : (filesByAnnotationLoop E annName files acc).result = .ok r) :
    r = acc ++ (files.filter ( matchesAnnotation E annName)).map markNotForOutput := by
  induction files generalizing acc with
  | nil =>
    simp only [filesByAnnotationLoop, Except.ok.injEq] at h
    simp [← h]
  | cons f rest ih =>
    unfold filesByAnnotationLoop at h
    by_cases hsel : f.File.type = .TypeYAML ∧ f.File.isTemplate = true
    · simp only [hsel, and_self, if_true] at h
      cases hparse : E.ParseYAML f.File with
      | error e => simp [hparse] at h
      | ok docSet =>
        simp only [hparse] at h
        cases hext : E.Extract annName docSet with
        | error e => simp [hext] at h
        | ok p =>
          obtain ⟨vals, others⟩ := p
          simp only [hext] at h
          by_cases hlen : vals.length > 0
          · simp only [hlen, if_true] at h
            have hm : matchesAnnotation E annName f = true := by
              simp [ matchesAnnotation, hsel.1, hsel.2, hparse, hext, hlen]
            rw [ih _ h, List.filter_cons_of_pos hm]
            simp [markNotForOutput]
          · simp only [hlen, if_false] at h
            have hm : ¬ matchesAnnotation E annName f = true := by
              simp [ matchesAnnotation, hsel.1, hsel.2, hparse, hext, hlen]
            rw [ih _ h, List.filter_cons_of_neg hm]
    · simp only [hsel, if_false] at h
      have hm : ¬ matchesAnnotation E annName f = true := by
        simp only [ matchesAnnotation, Bool.and_eq_true, decide_eq_true_eq, not_and]
        intro h1
        exact absurd h1 hsel
      rw [ih _ h, List.filter_cons_of_neg hm]

theorem filesByAnnotationLoop_trace {σ : Type} (E : Collaborators σ) (annName : Schema.AnnotationName)
    (files acc : List FileInLibrary) :
    ∀ ev ∈ (filesByAnnotationLoop E annName files acc).trace,
      (∃ f, ev = Event.ParseYAML f) ∨ (∃ f b, ev = Event.MarkForOutput f b) := by
  induction files generalizing acc with
  | nil => simp [filesByAnnotationLoop]
  | cons f rest ih =>
    unfold filesByAnnotationLoop
    split
    · split
      · simp
      · split
        · simp
        · split
          · intro ev hev
            simp only [List.mem_cons] at hev
            rcases hev with rfl | rfl | hev
            · exact Or.inl ⟨_, rfl⟩
            · exact Or.inr ⟨_, _, rfl⟩
            · exact ih _ ev hev
          · intro ev hev
            simp only [List.mem_cons] at hev
            rcases hev with rfl | hev
            · exact Or.inl ⟨_, rfl⟩
            · exact ih _ ev hev
    · exact ih _

/-! ## The merge loop of `Schemas` -/

theorem rootScoped_cons_lib (d : DocumentSchema) (rest : List DocumentSchema)
    (h : d.HasLibRef = true) :
    rootScoped (d :: rest) = rootScoped rest ∧
      libraryScoped (d :: rest) = d :: libraryScoped rest := by
  simp [rootScoped, libraryScoped, h]

theorem rootScoped_cons_root (d : DocumentSchema) (rest : List DocumentSchema)
    (h : d.HasLibRef = false) :
    rootScoped (d :: rest) = d :: rootScoped rest ∧
      libraryScoped (d :: rest) = libraryScoped rest := by
  simp [rootScoped, libraryScoped, h]

theorem mergeLoop_some {σ : Type} (E : Collaborators σ) (docs : List DocumentSchema)
    (base : Document) (libs : List DocumentSchema) :
    (mergeLoop E docs (some base) libs).1 =
      match overlayFold E base (rootScoped docs) with
      | .error err => .error err
      | .ok merged => .ok (some merged, libs ++ libraryScoped docs) := by
  induction docs generalizing base libs with
  | nil => simp [mergeLoop, rootScoped, libraryScoped, overlayFold]
  | cons d rest ih =>
    cases hb : d.HasLibRef with
    | true =>
      obtain ⟨h1, h2⟩ := rootScoped_cons_lib d rest hb
      rw [h1, h2]
      simp only [mergeLoop, hb, if_true, ih, List.append_assoc, List.singleton_append]
    | false =>
      obtain ⟨h1, h2⟩ := rootScoped_cons_root d rest hb
      rw [h1, h2]
      simp only [mergeLoop, hb, overlayFold, Bool.false_eq_true, if_false]
      cases hov : E.overlay base d.Source with
      | error e => rfl
      | ok merged => simp only [ih]

theorem mergeLoop_none {σ : Type} (E : Collaborators σ) (docs : List DocumentSchema)
    (libs : List DocumentSchema) :
    (mergeLoop E docs none libs).1 =
      match rootScoped docs with
      | [] => .ok (none, libs ++ libraryScoped docs)
      | r0 :: rest =>
        match overlayFold E r0.Source rest with
        | .error err => .error err
        | .ok merged => .ok (some merged, libs ++ libraryScoped docs) := by
  induction docs generalizing libs with
  | nil => simp [mergeLoop, rootScoped, libraryScoped]
  | cons d rest ih =>
    cases hb : d.HasLibRef with
    | true =>
      obtain ⟨h1, h2⟩ := rootScoped_cons_lib d rest hb
      rw [h1, h2]
      simp only [mergeLoop, hb, if_true, ih, List.append_assoc, List.singleton_append]
    | false =>
      obtain ⟨h1, h2⟩ := rootScoped_cons_root d rest hb
      rw [h1, h2]
      simp only [mergeLoop, hb, Bool.false_eq_true, if_false, mergeLoop_some]

theorem mergeLoop_trace {σ : Type} (E : Collaborators σ) (docs : List DocumentSchema)
    (r : Option Document) (libs : List DocumentSchema) :
    ∀ ev ∈ (mergeLoop E docs r libs).2, ∃ a b, ev = Event.overlay a b := by
  induction docs generalizing r libs with
  | nil => simp [mergeLoop]
  | cons d rest ih =>
    unfold mergeLoop
    split
    · exact ih _ _
    · split
      · exact ih _ _
      · split
        · simp
        · intro ev hev
          simp only [List.mem_cons] at hev
          rcases hev with rfl | hev
          · exact ⟨_, _, rfl⟩
          · exact ih _ _ ev hev

/-! ## `Schemas` -/

theorem Schemas_disabled_run {σ : Type} (E : Collaborators σ) (files : List FileInLibrary)
    (schemaOverlays : List DocumentSchema) (found : List FileInLibrary)
    (hfound : (schemaFiles E files).result = .ok found) :
    (Schemas E false files schemaOverlays).result = .ok (NewPermissiveSchema, []) ∧
    (Schemas E false files schemaOverlays).trace = (schemaFiles E files).trace ++
      (match found with
       | first :: _ =>
         [Event.Warnf ("Warning: schema document was detected (" ++ first.File.relativePath
            ++ "), but schema experiment flag is not enabled. "
            ++ "Did you mean to include --enable-experiment-schema?\n")]
       | [] => []) := by
  unfold Schemas
  simp only [hfound, Bool.false_eq_true, if_false]
  refine ⟨trivial, ?_⟩
  cases found <;> rfl

/-- C7 (amended): with schema processing enabled, on a library in which
discovery succeeds without finding a schema file, and for overlays that are
all library-scoped (in particular for no overlays), `Schemas` returns
`NullSchema`, the overlays as library schemas, and a nil error; `NullSchema`
differs from the permissive schema, which is what `Schemas` returns on the
same library when schema processing is disabled. -/
theorem Schemas_enabled_without_root_schema {σ : Type} (E : Collaborators σ)
    (files : List FileInLibrary) (schemaOverlays : List DocumentSchema)
    (hfound : (schemaFiles E files).result = .ok [])
    (hoverlays : ∀ d ∈ schemaOverlays, d.HasLibRef = true) :
    (Schemas E true files schemaOverlays).result = .ok (Schema.NullSchema, schemaOverlays) ∧
    Schema.NullSchema ≠ NewPermissiveSchema ∧
    (∀ overlays, (Schemas E false files overlays).result = .ok (NewPermissiveSchema, [])) := by
  have hroot : rootScoped schemaOverlays = [] := by
    unfold rootScoped
    rw [List.filter_eq_nil_iff]
    intro d hd
    simp [hoverlays d hd]
  have hlibs : libraryScoped schemaOverlays = schemaOverlays := by
    unfold libraryScoped
    rw [List.filter_eq_self]
    intro d hd
    exact hoverlays d hd
  refine ⟨?_, ?_, fun overlays => (Schemas_disabled_run E files overlays [] hfound).1⟩
  · have hmerge := mergeLoop_none E schemaOverlays []
    rw [hroot, hlibs] at hmerge
    simp only [List.nil_append] at hmerge
    unfold Schemas
    simp only [hfound, if_true, collectSchemaDocs, collectSchemaDocsLoop, List.nil_append]
    rcases hm : mergeLoop E schemaOverlays none [] with ⟨res, tr2⟩
    rw [hm] at hmerge
    simp only at hmerge
    subst hmerge
    rfl
  · intro h
    cases h

/-- C8: with schema processing disabled and a successful discovery, `Schemas`
returns the permissive schema, no library schemas and a nil error, whatever
the overlays; its events hold no evaluation and no merge; the discovered
files are the matching files in enumeration order, and a warning is emitted
exactly when that list is not empty, naming the relative path of its first
file. -/
theorem Schemas_disabled {σ : Type} (E : Collaborators σ) (files : List FileInLibrary)
    (schemaOverlays : List DocumentSchema) (found : List FileInLibrary)
    (hfound : (schemaFiles E files).result = .ok found) :
    (Schemas E false files schemaOverlays).result = .ok (NewPermissiveSchema, []) ∧
    (∀ ctx f, Event.EvalYAML ctx f ∉ (Schemas E false files schemaOverlays).trace) ∧
    (∀ a b, Event.overlay a b ∉ (Schemas E false files schemaOverlays).trace) ∧
    found = (files.filter ( matchesAnnotation E E.AnnotationSchemaMatch)).map markNotForOutput ∧
    (∀ msg, Event.Warnf msg ∈ (Schemas E false files schemaOverlays).trace ↔
      ∃ first rest, found = first :: rest ∧
        msg = "Warning: schema document was detected (" ++ first.File.relativePath
          ++ "), but schema experiment flag is not enabled. "
          ++ "Did you mean to include --enable-experiment-schema?\n") := by
  obtain ⟨hres, htrace⟩ := Schemas_disabled_run E files schemaOverlays found hfound
  have hdisc := filesByAnnotationLoop_trace E E.AnnotationSchemaMatch files []
  have hdisc2 : ∀ ev ∈ (schemaFiles E files).trace,
      (∃ f, ev = Event.ParseYAML f) ∨ (∃ f b, ev = Event.MarkForOutput f b) := hdisc
  have hlist := filesByAnnotationLoop_result E E.AnnotationSchemaMatch files [] found hfound
  rw [List.nil_append] at hlist
  refine ⟨hres, ?_, ?_, hlist, ?_⟩
  · intro ctx f hmem
    rw [htrace, List.mem_append] at hmem
    rcases hmem with hmem | hmem
    · rcases hdisc2 _ hmem with ⟨g, hg⟩ | ⟨g, b, hg⟩ <;> cases hg
    · cases found <;> simp at hmem
  · intro a b hmem
    rw [htrace, List.mem_append] at hmem
    rcases hmem with hmem | hmem
    · rcases hdisc2 _ hmem with ⟨g, hg⟩ | ⟨g, b, hg⟩ <;> cases hg
    · cases found <;> simp at hmem
  · intro msg
    rw [htrace, List.mem_append]
    constructor
    · rintro (hmem | hmem)
      · rcases hdisc2 _ hmem with ⟨g, hg⟩ | ⟨g, b, hg⟩ <;> cases hg
      · cases found with
        | nil => simp at hmem
        | cons first rest =>
          simp only [List.mem_singleton, Event.Warnf.injEq] at hmem
          exact ⟨first, rest, rfl, hmem⟩
    · rintro ⟨first, rest, rfl, rfl⟩
      exact Or.inr (List.mem_singleton.2 rfl)

/-- C9: with schema processing enabled, let `docs` be the schema documents
extracted from the discovered files and `R` the root-scoped documents of
`docs` followed by the overlays.  If `R` is empty `Schemas` returns
`NullSchema`; otherwise it returns the schema built by `NewDocumentSchema`
from the left fold of the overlay primitive over `R` with `R[0]` as base, and
the error of the first failing merge step (and no results) if one fails. -/
theorem Schemas_enabled_folds_root_schemas {σ : Type} (E : Collaborators σ)
    (files : List FileInLibrary) (schemaOverlays : List DocumentSchema)
    (found : List FileInLibrary) (docs : List DocumentSchema) (tr : List Event)
    (hfound : (schemaFiles E files).result = .ok found)
    (hdocs : collectSchemaDocs E found (E.NewTemplateLoader E.NewEmptyDataValues [] [])
      = (.ok docs, tr)) :
    (Schemas E true files schemaOverlays).result =
      match rootScoped (docs ++ schemaOverlays) with
      | [] => .ok (Schema.NullSchema, libraryScoped (docs ++ schemaOverlays))
      | r0 :: rest =>
        match overlayFold E r0.Source rest with
        | .error err => .error err
        | .ok merged =>
          match E.NewDocumentSchema merged with
          | .error err => .error err
          | .ok finalSchema =>
            .ok (Schema.document finalSchema, libraryScoped (docs ++ schemaOverlays)) := by
  have hmerge := mergeLoop_none E (docs ++ schemaOverlays) []
  simp only [List.nil_append] at hmerge
  unfold Schemas
  simp only [hfound, if_true, hdocs]
  rcases hm : mergeLoop E (docs ++ schemaOverlays) none [] with ⟨res, tr2⟩
  rw [hm] at hmerge
  simp only at hmerge
  subst hmerge
  cases hroot : rootScoped (docs ++ schemaOverlays) with
  | nil => rfl
  | cons r0 rest =>
    simp only
    cases hfold : overlayFold E r0.Source rest with
    | error e => rfl
    | ok merged =>
      simp only
      cases hnew : E.NewDocumentSchema merged <;> rfl

/-! ## Instances of `Schemas` on the sample engine -/

/-- C7 as stated fails: no file matches, schema processing is enabled, and
with one root-scoped overlay `Schemas` returns a document schema, not
`NullSchema`. -/
theorem Schemas_enabled_root_overlay_counterexample :
    (schemaFiles sampleEngine [sampleYAML "a.yml"]).result = .ok [] ∧
    (Schemas sampleEngine true [sampleYAML "a.yml"] [⟨⟨"x"⟩, false⟩]).result
      = .ok (Schema.document ⟨⟨"x"⟩, false⟩, []) ∧
    ¬ ∃ libs, (Schemas sampleEngine true [sampleYAML "a.yml"] [⟨⟨"x"⟩, false⟩]).result
      = .ok (Schema.NullSchema, libs) := by
  refine ⟨rfl, rfl, ?_⟩
  rintro ⟨libs, h⟩
  have h2 : (Schemas sampleEngine true [sampleYAML "a.yml"] [⟨⟨"x"⟩, false⟩]).result
      = .ok (Schema.document ⟨⟨"x"⟩, false⟩, []) := rfl
  rw [h2] at h
  cases h

theorem Schemas_enabled_without_root_schema_witness :
    (schemaFiles sampleEngine [sampleYAML "a.yml"]).result = .ok [] ∧
    (Schemas sampleEngine true [sampleYAML "a.yml"] [⟨⟨"y"⟩, true⟩]).result
      = .ok (Schema.NullSchema, [⟨⟨"y"⟩, true⟩]) :=
  ⟨rfl, (Schemas_enabled_without_root_schema sampleEngine [sampleYAML "a.yml"] [⟨⟨"y"⟩, true⟩]
      rfl (by simp)).1⟩

theorem Schemas_disabled_witness :
    (Schemas sampleEngine false [sampleYAML "a.yml", sampleYAML "schema.yml"]
        [⟨⟨"x"⟩, false⟩]).result = .ok (NewPermissiveSchema, []) ∧
    Event.Warnf ("Warning: schema document was detected (" ++ "schema.yml"
        ++ "), but schema experiment flag is not enabled. "
        ++ "Did you mean to include --enable-experiment-schema?\n")
      ∈ (Schemas sampleEngine false [sampleYAML "a.yml", sampleYAML "schema.yml"]
          [⟨⟨"x"⟩, false⟩]).trace :=
  ⟨(Schemas_disabled sampleEngine [sampleYAML "a.yml", sampleYAML "schema.yml"]
      [⟨⟨"x"⟩, false⟩] [markNotForOutput (sampleYAML "schema.yml")] rfl).1,
   ((Schemas_disabled sampleEngine [sampleYAML "a.yml", sampleYAML "schema.yml"]
      [⟨⟨"x"⟩, false⟩] [markNotForOutput (sampleYAML "schema.yml")] rfl).2.2.2.2 _).2
      ⟨markNotForOutput (sampleYAML "schema.yml"), [], rfl, rfl⟩⟩

theorem Schemas_enabled_folds_root_schemas_witness :
    (Schemas sampleEngine true [sampleYAML "a.yml", sampleYAML "schema.yml"]
        [⟨⟨"x"⟩, false⟩, ⟨⟨"y"⟩, true⟩]).result
      = .ok (Schema.document ⟨⟨"schema/match+x"⟩, false⟩, [⟨⟨"y"⟩, true⟩]) :=
  (Schemas_enabled_folds_root_schemas sampleEngine [sampleYAML "a.yml", sampleYAML "schema.yml"]
    [⟨⟨"x"⟩, false⟩, ⟨⟨"y"⟩, true⟩] [markNotForOutput (sampleYAML "schema.yml")]
    [⟨⟨"schema/match"⟩, false⟩]
    [.EvalYAML ⟨sampleLibrary, ⟨""⟩⟩ (markNotForOutput (sampleYAML "schema.yml")).File]
    rfl rfl).trans rfl

/-! ## Order of the output -/

theorem fileOrderLE_iff (a b : FileInLibrary) :
    fileOrderLE a b = true ↔
      a.Library.path < b.Library.path ∨
        (a.Library.path = b.Library.path ∧ a.relativePath ≤ b.relativePath) := by
  simp [fileOrderLE]

theorem fileOrderLE_total : IsTotal FileInLibrary (fun a b => fileOrderLE a b = true) where
  total a b := by
    simp only [fileOrderLE_iff]
    rcases lt_trichotomy a.Library.path b.Library.path with h | h | h
    · exact Or.inl (Or.inl h)
    · rcases le_total a.relativePath b.relativePath with h2 | h2
      · exact Or.inl (Or.inr ⟨h, h2⟩)
      · exact Or.inr (Or.inr ⟨h.symm, h2⟩)
    · exact Or.inr (Or.inl h)

theorem fileOrderLE_trans : IsTrans FileInLibrary (fun a b => fileOrderLE a b = true) where
  trans a b c := by
    simp only [fileOrderLE_iff]
    rintro (h1 | ⟨h1, h2⟩) (h3 | ⟨h3, h4⟩)
    · exact Or.inl (lt_trans h1 h3)
    · exact Or.inl (h3 ▸ h1)
    · exact Or.inl (h1 ▸ h3)
    · exact Or.inr ⟨h1.trans h3, le_trans h2 h4⟩

theorem lookup_eq_none_of_not_mem (m : DocSets) (k : FileInLibrary)
    (h : k ∉ m.map Prod.fst) : m.lookup k = none := by
  induction m with
  | nil => rfl
  | cons p rest ih =>
    obtain ⟨k1, v1⟩ := p
    simp only [List.map_cons, List.mem_cons, not_or] at h
    have hne : (k == k1) = false := by
      simpa using h.1
    simp only [List.lookup_cons, hne]
    exact ih h.2

theorem Eval_ok_inv {σ : Type} (E : Collaborators σ)
    (mapRange : List FileInLibrary → List FileInLibrary) (Root : Library)
    (files : List FileInLibrary) (values : DataValues) (libraryValues : List DataValues)
    (librarySchemas : List DocumentSchema) (r : EvalResult)
    (h : (Eval E mapRange Root files values libraryValues librarySchemas).1 = .ok r) :
    ∃ st out tr,
      evalLoop E Root files (initialEvalState E values libraryValues librarySchemas)
        = (none, st) ∧
      checkUnusedDVs (E.derefLibraryValues st.loader libraryValues) = none ∧
      E.PostProcess st.docSets = .ok out ∧
      (assembleLoop E out (sortedOutputDocSets mapRange out)
        { Files := st.outputFiles, DocSet := { Items := [] }, Exports := st.exports } tr).1
        = .ok r := by
  unfold Eval at h
  rw [eval_of_loop] at h
  rcases hloop : evalLoop E Root files
      (initialEvalState E values libraryValues librarySchemas) with ⟨_ | e, st⟩
  · rw [hloop] at h
    simp only at h
    cases hcheck : checkUnusedDVs (E.derefLibraryValues st.loader libraryValues) with
    | some msg => simp [hcheck] at h
    | none =>
      simp only [hcheck] at h
      cases hpp : E.PostProcess st.docSets with
      | error e => simp [hpp] at h
      | ok out =>
        simp only [hpp] at h
        exact ⟨st, out, _, rfl, hcheck, hpp, h⟩
  · rw [hloop] at h
    simp at h

end Ytt.Workspace

namespace Ytt.Schema

/-! ## Diagnostics of `NewTypeAnnotation` -/

theorem typeKwargsLoop_anyKwargs (pos : Position) (bs : List Bool)
    (rest : List (StarlarkValue × StarlarkValue)) (ta : TypeAnnotation) :
    ∃ ta1, typeKwargsLoop pos (anyKwargs bs ++ rest) ta = typeKwargsLoop pos rest ta1 := by
  induction bs generalizing ta with
  | nil => exact ⟨ta, rfl⟩
  | cons b bs ih =>
    obtain ⟨ta1, h⟩ := ih { ta with any := b }
    refine ⟨ta1, ?_⟩
    simp only [anyKwargs, List.map_cons, List.cons_append] at h ⊢
    rw [typeKwargsLoop_cons_any]
    exact h

/-- C11 (amended): after any number of valid `any=<bool>` keyword arguments,
a keyword of another name yields the diagnostic whose `found` is that name,
and a non-boolean value of `any` yields the diagnostic whose `found` is the
Go type name of the value; both carry the hints list
`["Supported kwargs are 'any'"]`, which is not the hints list of the
diagnostic for missing keyword arguments. -/
theorem NewTypeAnnotation_diagnostics (pos : Position) (bs : List Bool)
    (argName : String) (value other : StarlarkValue)
    (rest : List (StarlarkValue × StarlarkValue))
    (hname : argName ≠ "any") (hvalue : ∀ b, value ≠ StarlarkValue.bool b) :
    NewTypeAnnotation ⟨anyKwargs bs ++ (StarlarkValue.string argName, other) :: rest⟩ pos
      = .error (.assertion (unknownKwargError pos argName)) ∧
    NewTypeAnnotation ⟨anyKwargs bs ++ (StarlarkValue.string "any", value) :: rest⟩ pos
      = .error (.assertion (nonBoolError pos value)) ∧
    (unknownKwargError pos argName).found = argName ∧
    (nonBoolError pos value).found = value.goTypeName ∧
    (unknownKwargError pos argName).hints = ["Supported kwargs are 'any'"] ∧
    (nonBoolError pos value).hints = ["Supported kwargs are 'any'"] ∧
    (missingKwargError pos).hints = ["Supported key-value pairs are 'any=True', 'any=False'"] ∧
    (unknownKwargError pos argName).hints ≠ (missingKwargError pos).hints ∧
    (nonBoolError pos value).hints ≠ (missingKwargError pos).hints := by
  refine ⟨?_, ?_, rfl, rfl, ?_, ?_, ?_, ?_, ?_⟩
  · unfold NewTypeAnnotation
    have hlen : ¬ (anyKwargs bs ++ (StarlarkValue.string argName, other) :: rest).length = 0 := by
      simp
    simp only [hlen, if_false]
    obtain ⟨ta1, h⟩ := typeKwargsLoop_anyKwargs pos bs
      ((StarlarkValue.string argName, other) :: rest) { any := false, itemPosition := pos }
    rw [h]
    simp [typeKwargsLoop, StarlarkValue.AsString, TypeAnnotationKwargAny, hname]
  · unfold NewTypeAnnotation
    have hlen : ¬ (anyKwargs bs ++ (StarlarkValue.string "any", value) :: rest).length = 0 := by
      simp
    simp only [hlen, if_false]
    obtain ⟨ta1, h⟩ := typeKwargsLoop_anyKwargs pos bs
      ((StarlarkValue.string "any", value) :: rest) { any := false, itemPosition := pos }
    rw [h]
    cases value with
    | bool b => exact absurd rfl (hvalue b)
    | string s => simp [typeKwargsLoop, StarlarkValue.AsString, StarlarkValue.AsBool,
        TypeAnnotationKwargAny]
    | int i => simp [typeKwargsLoop, StarlarkValue.AsString, StarlarkValue.AsBool,
        TypeAnnotationKwargAny]
    | none => simp [typeKwargsLoop, StarlarkValue.AsString, StarlarkValue.AsBool,
        TypeAnnotationKwargAny]
    | other t => simp [typeKwargsLoop, StarlarkValue.AsString, StarlarkValue.AsBool,
        TypeAnnotationKwargAny]
  · rfl
  · rfl
  · rfl
  · simp only [unknownKwargError, missingKwargError]
    decide
  · simp only [nonBoolError, missingKwargError]
    decide

/-- C11 as stated fails: the diagnostic for the unknown keyword `foo` and the
one for `any="yes"` do not carry the hints of the diagnostic for missing
keyword arguments, and the `found` of the latter is the Go type name
`starlark.String`, the same for the value `"yes"` and the value `"no"`. -/
theorem NewTypeAnnotation_hints_counterexample :
    NewTypeAnnotation ⟨[]⟩ ⟨4⟩ = .error (.assertion (missingKwargError ⟨4⟩)) ∧
    NewTypeAnnotation ⟨[(.string "foo", .bool true)]⟩ ⟨4⟩
      = .error (.assertion (unknownKwargError ⟨4⟩ "foo")) ∧
    NewTypeAnnotation ⟨[(.string "any", .string "yes")]⟩ ⟨4⟩
      = .error (.assertion (nonBoolError ⟨4⟩ (.string "yes"))) ∧
    (unknownKwargError ⟨4⟩ "foo").hints ≠ (missingKwargError ⟨4⟩).hints ∧
    (nonBoolError ⟨4⟩ (.string "yes")).hints ≠ (missingKwargError ⟨4⟩).hints ∧
    (nonBoolError ⟨4⟩ (.string "yes")).found = "starlark.String" ∧
    (nonBoolError ⟨4⟩ (.string "no")).found = "starlark.String" :=
  ⟨rfl, rfl, rfl, by decide, by decide, rfl, rfl⟩

theorem NewTypeAnnotation_diagnostics_witness :
    NewTypeAnnotation ⟨anyKwargs [true] ++ (StarlarkValue.string "foo", .int 1) :: []⟩ ⟨4⟩
      = .error (.assertion (unknownKwargError ⟨4⟩ "foo")) ∧
    NewTypeAnnotation ⟨anyKwargs [true] ++ (StarlarkValue.string "any", .int 1) :: []⟩ ⟨4⟩
      = .error (.assertion (nonBoolError ⟨4⟩ (.int 1))) :=
  ⟨(NewTypeAnnotation_diagnostics ⟨4⟩ [true] "foo" (.int 1) (.int 1) []
      (by decide) (by intro b; exact StarlarkValue.noConfusion)).1,
   (NewTypeAnnotation_diagnostics ⟨4⟩ [true] "foo" (.int 1) (.int 1) []
      (by decide) (by intro b; exact StarlarkValue.noConfusion)).2.1⟩

/-! ## The nullable annotation -/

/-- C16 (the code at the failing input): for `Type(any=False)` followed by
`Nullable(t)` the function returns nil, not the `NullType` wrapping `t` that
the comment in the code announces. -/
theorem convertAnnotationsToSingleType_no_nullable_fallback :
    convertAnnotationsToSingleType
        [ Annotation.type ⟨false, ⟨4⟩⟩, Annotation.nullable ⟨.other 7, ⟨4⟩⟩] = none ∧
    convertAnnotationsToSingleType
        [ Annotation.type ⟨false, ⟨4⟩⟩, Annotation.nullable ⟨.other 7, ⟨4⟩⟩]
      ≠ some (YType.NullType (.other 7) ⟨4⟩) :=
  ⟨rfl, by decide⟩

/-- C17: `NewNullableAnnotation` returns an error exactly when the annotation
has a keyword argument, and otherwise the annotation with the given value
type and position.  For a node whose nullable annotation has a keyword
argument, `collectAnnotations` never returns an annotation list, whatever the
type annotation is; when the node has a first child value (as every document,
map item and array item has) it returns an error. -/
theorem NewNullableAnnotation_rejects_kwargs {Val : Type}
    (f : Val → Position → Except Err YType) (node : Node Val) (ann : NodeAnnotation)
    (valueType : YType) (pos : Position) :
    ((∃ err, NewNullableAnnotation ann valueType pos = .error err) ↔ ann.Kwargs ≠ []) ∧
    (ann.Kwargs = [] →
      NewNullableAnnotation ann valueType pos
        = .ok { providedValueType := valueType, itemPosition := pos }) ∧
    (node.annotations.lookup AnnotationNullable = some ann → ann.Kwargs ≠ [] →
      (∀ anns, collectAnnotations f node ≠ .returned (.ok anns)) ∧
      (node.values ≠ [] → ∃ err, collectAnnotations f node = .returned (.error err))) := by
  have hnew : ∀ (vt : YType) (p : Position), ann.Kwargs ≠ [] →
      ∃ err, NewNullableAnnotation ann vt p = .error err := by
    intro vt p hne
    unfold NewNullableAnnotation
    have hlen : ann.Kwargs.length ≠ 0 := fun h => hne (List.length_eq_zero.mp h)
    simp only [hlen, ne_eq, not_false_eq_true, if_true]
    exact ⟨_, rfl⟩
  refine ⟨⟨?_, hnew valueType pos⟩, ?_, ?_⟩
  · rintro ⟨err, herr⟩ hnil
    simp [ NewNullableAnnotation, hnil] at herr
  · intro hnil
    simp [ NewNullableAnnotation, hnil]
  · intro hlook hne
    have hproc : (∀ r, processOptionalAnnotation f node AnnotationNullable
          ≠ .returned (.ok r)) ∧
        (node.values ≠ [] →
          ∃ err, processOptionalAnnotation f node AnnotationNullable = .returned (.error err)) := by
      rw [processOptionalAnnotation_nullable]
      simp only [hlook]
      cases hv : node.values with
      | nil => exact ⟨(fun r h => by cases h), fun h => absurd rfl h⟩
      | cons v0 vs =>
        simp only
        cases hf : f v0 node.position with
        | error e => exact ⟨(fun r h => by cases h), fun _ => ⟨e, rfl⟩⟩
        | ok t =>
          obtain ⟨err, herr⟩ := hnew t node.position hne
          simp only [herr]
          exact ⟨(fun r h => by cases h), fun _ => ⟨err, rfl⟩⟩
    obtain ⟨hnever, herror⟩ := hproc
    unfold collectAnnotations
    simp only [collectLoop]
    constructor
    · intro anns h
      cases hT : processOptionalAnnotation f node AnnotationType with
      | indexOutOfRange => simp [hT] at h
      | returned rT =>
        cases rT with
        | error e => simp [hT] at h
        | ok oT =>
          cases hN : processOptionalAnnotation f node AnnotationNullable with
          | indexOutOfRange => cases oT <;> simp [hT, hN] at h
          | returned rN =>
            cases rN with
            | error e => cases oT <;> simp [hT, hN] at h
            | ok oN => exact hnever oN hN
    · intro hvals
      obtain ⟨err, herr⟩ := herror hvals
      cases hT : processOptionalAnnotation f node AnnotationType with
      | indexOutOfRange =>
        exfalso
        rw [processOptionalAnnotation_type] at hT
        cases hl : node.annotations.lookup AnnotationType with
        | none => simp [hl] at hT
        | some a =>
          simp only [hl] at hT
          cases hta : NewTypeAnnotation a node.position <;> simp [hta] at hT
      | returned rT =>
        cases rT with
        | error e => exact ⟨e, rfl⟩
        | ok oT => cases oT <;> exact ⟨err, by simp only [herr]⟩

theorem NewNullableAnnotation_rejects_kwargs_witness :
    ∃ err, collectAnnotations sampleItemType sampleKeywordNullableNode = .returned (.error err) :=
  ((NewNullableAnnotation_rejects_kwargs sampleItemType sampleKeywordNullableNode
      ⟨[(.string "any", .bool true)]⟩ (.other 7) ⟨4⟩).2.2 rfl (by simp)).2 (by simp [sampleKeywordNullableNode])

end Ytt.Schema

namespace Ytt.Schema

/-! ## The reordering in `convertAnnotationsToSingleType` -/

theorem convert_pair_cases (a b : Annotation) (hT : countType [a, b] ≤ 1)
    (hN : countNullable [a, b] ≤ 1)
    (hne : convertAnnotationsToSingleType [a, b] ≠ resolveFirst [a, b]) :
    ∃ t npos pos, [a, b] = [ Annotation.nullable ⟨t, npos⟩, Annotation.type ⟨true, pos⟩] := by
  cases a with
  | type ta =>
    cases b with
    | type tb => simp [countType] at hT
    | nullable nb =>
      exfalso
      apply hne
      obtain ⟨anyA, posA⟩ := ta
      cases anyA <;> rfl
  | nullable na =>
    cases b with
    | nullable nb => simp [countNullable] at hN
    | type tb =>
      obtain ⟨anyB, posB⟩ := tb
      obtain ⟨t, npos⟩ := na
      cases anyB with
      | false => exact absurd rfl hne
      | true => exact ⟨t, npos, posB, rfl⟩

theorem read_alloc (h : SliceHeap) (xs : List Annotation) :
    (h.alloc xs).1.read (h.alloc xs).2 = xs := by
  simp [SliceHeap.alloc, SliceHeap.read]

theorem read_alloc_old (h : SliceHeap) (xs : List Annotation) (a : Nat)
    (ha : a < h.arrays.length) : (h.alloc xs).1.read a = h.read a := by
  simp [SliceHeap.alloc, SliceHeap.read, List.getElem?_append_left ha]

theorem read_write_same (h : SliceHeap) (xs : List Annotation) (a : Nat)
    (ha : a < h.arrays.length) : (h.write a xs).read a = xs := by
  simp [SliceHeap.write, SliceHeap.read, ha]

theorem read_write_other (h : SliceHeap) (xs : List Annotation) (a b : Nat)
    (hab : a ≠ b) : (h.write a xs).read b = h.read b := by
  simp [SliceHeap.write, SliceHeap.read, List.getElem?_set_ne hab]

/-- On a heap the function returns what `convertAnnotationsToSingleType`
returns for the caller's slice, and leaves every array that existed before
the call, the caller's among them, as it was. -/
theorem convertAnnotationsToSingleTypeInMemory_frame (h : SliceHeap) (anns : Nat) :
    (convertAnnotationsToSingleTypeInMemory h anns).1
      = convertAnnotationsToSingleType (h.read anns) ∧
    ∀ a, a < h.arrays.length →
      (convertAnnotationsToSingleTypeInMemory h anns).2.read a = h.read a := by
  have hnew : (h.alloc ([] ++ h.read anns)).2 < (h.alloc ([] ++ h.read anns)).1.arrays.length := by
    simp [SliceHeap.alloc]
  have hcopy := read_alloc h ([] ++ h.read anns)
  unfold convertAnnotationsToSingleTypeInMemory convertAnnotationsToSingleType
  simp only [hcopy]
  by_cases hlen : ([] ++ h.read anns).length = 0
  · simp only [hlen, if_true, true_and]
    intro a ha
    exact read_alloc_old h _ a ha
  · simp only [hlen, if_false]
    rw [read_write_same _ _ _ hnew]
    refine ⟨rfl, ?_⟩
    intro a ha
    have hne : (h.alloc ([] ++ h.read anns)).2 ≠ a := by
      simp only [SliceHeap.alloc]
      omega
    rw [read_write_other _ _ _ _ hne]
    exact read_alloc_old h _ a ha

/-- C19 (amended): on every list `collectAnnotations` returns the reordering
changes nothing and `convertAnnotationsToSingleType` returns nil for the
empty list and what the first annotation resolves to otherwise.  Among the
lists with at most one annotation of each kind, the reordering changes the
result only for a nullable annotation followed by a type annotation with
any=True, where the result is `AnyType` instead of the `NullType` of the
first annotation.  The function never modifies the list it is given: on a
heap it sorts a fresh copy and leaves every array that existed before the
call as it was. -/
theorem convertAnnotationsToSingleType_reordering {Val : Type}
    (f : Val → Position → Except Err YType) (node : Node Val) (anns : List Annotation)
    (hcollect : collectAnnotations f node = .returned (.ok anns)) :
    sortSlice preferAnyTypeOverNullableType anns = anns ∧
    convertAnnotationsToSingleType anns = resolveFirst anns ∧
    (∀ l : List Annotation, countType l ≤ 1 → countNullable l ≤ 1 →
      convertAnnotationsToSingleType l ≠ resolveFirst l →
      ∃ t npos pos, l = [ Annotation.nullable ⟨t, npos⟩, Annotation.type ⟨true, pos⟩]) ∧
    (∀ t npos pos,
      convertAnnotationsToSingleType
          [ Annotation.nullable ⟨t, npos⟩, Annotation.type ⟨true, pos⟩] = some (YType.AnyType pos) ∧
      resolveFirst [ Annotation.nullable ⟨t, npos⟩, Annotation.type ⟨true, pos⟩]
        = some (YType.NullType t npos)) ∧
    (∀ (h : SliceHeap) (addr : Nat),
      (convertAnnotationsToSingleTypeInMemory h addr).1
        = convertAnnotationsToSingleType (h.read addr) ∧
      ∀ a, a < h.arrays.length →
        (convertAnnotationsToSingleTypeInMemory h addr).2.read a = h.read a) := by
  obtain ⟨ts, ns, rfl⟩ := collectAnnotations_shape f node anns hcollect
  refine ⟨?_, ?_, ?_, fun t npos pos => ⟨rfl, rfl⟩,
    fun h addr => convertAnnotationsToSingleTypeInMemory_frame h addr⟩
  · cases ts with
    | none => cases ns <;> rfl
    | some b => cases ns <;> cases b <;> rfl
  · cases ts with
    | none => cases ns <;> rfl
    | some b => cases ns <;> cases b <;> rfl
  · intro l hT hN hne
    rcases l with _ | ⟨a, _ | ⟨b, _ | ⟨c, rest⟩⟩⟩
    · exact absurd rfl hne
    · exfalso
      apply hne
      cases a <;> rfl
    · exact convert_pair_cases a b hT hN hne
    · exfalso
      cases a <;> cases b <;> cases c <;>
        simp [countType, countNullable, List.filter] at hT hN

/-- C19 as stated fails: for a type annotation with any=False followed by a
type annotation with any=True the reordering changes the result (`AnyType`
instead of nil), and the list holds no nullable annotation. -/
theorem convertAnnotationsToSingleType_reordering_counterexample :
    convertAnnotationsToSingleType
        [ Annotation.type ⟨false, ⟨4⟩⟩, Annotation.type ⟨true, ⟨5⟩⟩] = some (YType.AnyType ⟨5⟩) ∧
    resolveFirst [ Annotation.type ⟨false, ⟨4⟩⟩, Annotation.type ⟨true, ⟨5⟩⟩] = none ∧
    sortSlice preferAnyTypeOverNullableType
        [ Annotation.type ⟨false, ⟨4⟩⟩, Annotation.type ⟨true, ⟨5⟩⟩]
      = [ Annotation.type ⟨true, ⟨5⟩⟩, Annotation.type ⟨false, ⟨4⟩⟩] ∧
    countNullable [ Annotation.type ⟨false, ⟨4⟩⟩, Annotation.type ⟨true, ⟨5⟩⟩] = 0 ∧
    ¬ ∃ t npos pos, [ Annotation.type ⟨false, ⟨4⟩⟩, Annotation.type ⟨true, ⟨5⟩⟩]
        = [ Annotation.nullable ⟨t, npos⟩, Annotation.type ⟨true, pos⟩] := by
  refine ⟨rfl, rfl, rfl, rfl, ?_⟩
  rintro ⟨t, npos, pos, h⟩
  simp at h

theorem convertAnnotationsToSingleType_reordering_witness :
    sortSlice preferAnyTypeOverNullableType
        [ Annotation.type ⟨true, ⟨4⟩⟩, Annotation.nullable ⟨.other 7, ⟨4⟩⟩]
      = [ Annotation.type ⟨true, ⟨4⟩⟩, Annotation.nullable ⟨.other 7, ⟨4⟩⟩] :=
  (convertAnnotationsToSingleType_reordering sampleItemType sampleAnyNode
    [ Annotation.type ⟨true, ⟨4⟩⟩, Annotation.nullable ⟨.other 7, ⟨4⟩⟩] rfl).1

end Ytt.Schema

namespace Ytt.Workspace

/-! ## Classification of a file by the loop of `eval` -/

theorem evalFile_unknown_output {σ : Type} (E : Collaborators σ) (Root : Library)
    (st : EvalState σ) (f : FileInLibrary) (hout : f.File.isForOutput = true)
    (hy : f.File.type ≠ .TypeYAML) (ht : f.File.type ≠ .TypeText) :
    evalFile E Root st f = (some (.message "Unknown file type"), st) := by
  cases hty : f.File.type with
  | TypeYAML => exact absurd hty hy
  | TypeText => exact absurd hty ht
  | TypeStarlark => simp only [evalFile, hout, hty, if_true]
  | TypeUnknown => simp only [evalFile, hout, hty, if_true]

/-- C13: if the files before `f` evaluate without error and `f` is flagged for
output with a kind that is neither YAML nor text, then `Eval` returns the
error "Unknown file type" and no result, and the events are those of the
files before `f`: neither `f` nor a file after it is evaluated.  Nothing is
assumed about the library flag of `f`. -/
theorem Eval_unknown_file_type {σ : Type} (E : Collaborators σ)
    (mapRange : List FileInLibrary → List FileInLibrary) (Root : Library)
    (pre : List FileInLibrary) (f : FileInLibrary) (post : List FileInLibrary)
    (values : DataValues) (libraryValues : List DataValues)
    (librarySchemas : List DocumentSchema) (st : EvalState σ)
    (hpre : evalLoop E Root pre (initialEvalState E values libraryValues librarySchemas)
      = (none, st))
    (hout : f.File.isForOutput = true)
    (hy : f.File.type ≠ .TypeYAML) (ht : f.File.type ≠ .TypeText) :
    Eval E mapRange Root (pre ++ f :: post) values libraryValues librarySchemas
      = (.error (.message "Unknown file type"), st.trace) := by
  have hloop : evalLoop E Root (pre ++ f :: post)
      (initialEvalState E values libraryValues librarySchemas)
      = (some (.message "Unknown file type"), st) := by
    rw [evalLoop_append, hpre]
    simp only [evalLoop, evalFile_unknown_output E Root st f hout hy ht]
  unfold Eval
  rw [eval_of_loop, hloop]

theorem Eval_unknown_file_type_witness :
    Eval sampleEngine id sampleLibrary
        ([sampleYAML "a.yml"] ++ sampleStarlarkOutput "x.star" :: [sampleYAML "b.yml"])
        sampleValues [] []
      = (.error (.message "Unknown file type"),
         [.EvalYAML ⟨sampleLibrary, sampleLibrary⟩ (sampleYAML "a.yml").File]) :=
  Eval_unknown_file_type sampleEngine id sampleLibrary [sampleYAML "a.yml"]
    (sampleStarlarkOutput "x.star") [sampleYAML "b.yml"] sampleValues [] []
    { loader := ["a.yml"], exports := [],
      docSets := [(sampleYAML "a.yml", { Items := [⟨"a.yml"⟩] })], outputFiles := [],
      trace := [.EvalYAML ⟨sampleLibrary, sampleLibrary⟩ (sampleYAML "a.yml").File] }
    rfl rfl (by decide) (by decide)

/-- A file that is not for output and not an exporting library file leaves
the variables of the loop as they are. -/
theorem evalFile_ignored {σ : Type} (E : Collaborators σ) (Root : Library)
    (st : EvalState σ) (f : FileInLibrary) (hout : f.File.isForOutput = false)
    (hexp : isLibraryExport f = false) :
    evalFile E Root st f = (none, st) := by
  simp only [isLibraryExport, hout, Bool.not_false, Bool.true_and, Bool.and_eq_false_iff,
    Bool.or_eq_false_iff, decide_eq_false_iff_not] at hexp
  simp only [evalFile, hout, Bool.false_eq_true, if_false]
  cases hlib : f.File.isLibrary with
  | false => simp
  | true =>
    simp only [if_true]
    rcases hexp with h | h
    · rw [hlib] at h
      cases h
    · cases hty : f.File.type with
      | TypeYAML => exact absurd hty h.1.1
      | TypeText => exact absurd hty h.1.2
      | TypeStarlark => exact absurd hty h.2
      | TypeUnknown => rfl

theorem evalFile_loader {σ : Type} (E : Collaborators σ) (Root : Library)
    (st : EvalState σ) (f : FileInLibrary) :
    (evalFile E Root st f).2.loader = loaderAfter E Root st.loader f := by
  simp only [evalFile, loaderAfter]
  cases f.File.isForOutput <;> cases f.File.isLibrary <;> cases f.File.type <;>
    simp only [Bool.false_eq_true, if_false, if_true]
  all_goals first
    | rfl
    | (rcases E.EvalYAML st.loader { Current := f.Library, Root := Root } f.File
        with ⟨_ | ⟨_, _⟩, _⟩ <;> rfl)
    | (rcases E.EvalText st.loader { Current := f.Library, Root := Root } f.File
        with ⟨_ | ⟨_, _⟩, _⟩ <;> rfl)
    | (rcases E.EvalStarlark st.loader { Current := f.Library, Root := Root } f.File
        with ⟨_ | _, _⟩ <;> rfl)

/-- What one iteration that ends without error adds to the exports, and that
a file not for output adds no document set and no output file. -/
theorem evalFile_exports {σ : Type} (E : Collaborators σ) (Root : Library)
    (st st1 : EvalState σ) (f : FileInLibrary)
    (h : evalFile E Root st f = (none, st1)) :
    st1.exports = st.exports ++ (exportOf E Root st.loader f).toList ∧
    st1.exports.map (fun e => e.Path)
      = st.exports.map (fun e => e.Path)
        ++ ([f].filter isLibraryExport).map (fun g => g.relativePath) ∧
    (f.File.isForOutput = false →
      st1.docSets = st.docSets ∧ st1.outputFiles = st.outputFiles) := by
  simp only [evalFile] at h
  simp only [exportOf, isLibraryExport, List.filter]
  cases hfo : f.File.isForOutput <;> cases hlib : f.File.isLibrary <;>
    cases hty : f.File.type <;>
    simp only [hfo, hlib, hty, Bool.false_eq_true, if_false, if_true, false_and, true_and,
      and_self, and_false, reduceCtorEq] at h ⊢
  all_goals (repeat' split at h)
  all_goals
    simp only [Prod.mk.injEq, reduceCtorEq, false_and, true_and] at h
  all_goals
    subst h
    simp_all

end Ytt.Workspace

namespace Ytt.Workspace

/-! ## Exports -/

theorem evalLoop_exports {σ : Type} (E : Collaborators σ) (Root : Library)
    (files : List FileInLibrary) (st st1 : EvalState σ)
    (h : evalLoop E Root files st = (none, st1)) :
    st1.exports = st.exports ++ expectedExports E Root files st.loader ∧
    st1.exports.map (fun e => e.Path)
      = st.exports.map (fun e => e.Path)
        ++ (files.filter isLibraryExport).map (fun g => g.relativePath) := by
  induction files generalizing st with
  | nil =>
    simp only [evalLoop, Prod.mk.injEq, true_and] at h
    subst h
    simp [expectedExports]
  | cons f rest ih =>
    simp only [evalLoop] at h
    rcases hstep : evalFile E Root st f with ⟨_ | e, st2⟩
    · rw [hstep] at h
      obtain ⟨h1, h2, _⟩ := evalFile_exports E Root st st2 f hstep
      obtain ⟨h3, h4⟩ := ih st2 h
      have hl : st2.loader = loaderAfter E Root st.loader f := by
        have := evalFile_loader E Root st f
        rw [hstep] at this
        exact this
      constructor
      · rw [h3, h1, hl]
        simp [expectedExports]
      · rw [h4, h2]
        cases hx : isLibraryExport f <;> simp [List.filter, hx]
    · rw [hstep] at h
      simp at h

/-- What the assembly loop adds to the result: the documents and the output
file of every file of the sorted list, in order; the exports stay. -/
theorem assembleLoop_spec {σ : Type} (E : Collaborators σ) (m : DocSets)
    (l : List FileInLibrary) (res r : EvalResult) (tr : List Event)
    (h : (assembleLoop E m l res tr).1 = .ok r) :
    r.DocSet.Items = res.DocSet.Items ++ (l.map (docsOfFile m)).flatten ∧
    r.Files = res.Files ++ l.filterMap (yamlOutputFile E m) ∧
    (l.filterMap (yamlOutputFile E m)).map (fun o => o.relativePath)
      = l.map (fun f => f.relativePath) ∧
    r.Exports = res.Exports := by
  induction l generalizing res tr with
  | nil =>
    simp only [assembleLoop, Except.ok.injEq] at h
    subst h
    simp
  | cons f rest ih =>
    unfold assembleLoop at h
    cases hl : m.lookup f with
    | none => simp [hl] at h
    | some docSet =>
      simp only [hl] at h
      cases hb : E.AsBytes docSet with
      | error e => simp [hb] at h
      | ok bytes =>
        simp only [hb] at h
        obtain ⟨h1, h2, h3, h4⟩ := ih _ _ h
        have hy : yamlOutputFile E m f
            = some (NewOutputFile f.relativePath bytes f.File.type) := by
          simp [yamlOutputFile, hl, hb]
        have hd : docsOfFile m f = docSet.Items := by
          simp [docsOfFile, hl]
        refine ⟨?_, ?_, ?_, h4⟩
        · rw [h1]
          simp [hd, List.append_assoc]
        · rw [h2]
          simp [List.filterMap_cons, hy, List.append_assoc]
        · simp [List.filterMap_cons, hy, h3, NewOutputFile]

/-- C12: for every successful `Eval` the exports are, in enumeration order,
one export per file that is not for output, is flagged as library and has
kind YAML, text or Starlark, with the file's relative path and the globals
the engine returned for it.  An iteration for a file that is not for output
leaves the map of document sets and the output files as they are, and for a
file that is moreover not such a library file (a library file of another
kind, or a file that is no library file) it changes nothing and is no
error. -/
theorem Eval_exports {σ : Type} (E : Collaborators σ)
    (mapRange : List FileInLibrary → List FileInLibrary) (Root : Library)
    (files : List FileInLibrary) (values : DataValues) (libraryValues : List DataValues)
    (librarySchemas : List DocumentSchema) (r : EvalResult)
    (h : (Eval E mapRange Root files values libraryValues librarySchemas).1 = .ok r) :
    r.Exports = expectedExports E Root files
      (E.NewTemplateLoader values libraryValues librarySchemas) ∧
    r.Exports.map (fun e => e.Path)
      = (files.filter isLibraryExport).map (fun f => f.relativePath) ∧
    (∀ (st st1 : EvalState σ) (f : FileInLibrary), f.File.isForOutput = false →
      evalFile E Root st f = (none, st1) →
      st1.docSets = st.docSets ∧ st1.outputFiles = st.outputFiles ∧
      st1.exports = st.exports ++ (exportOf E Root st.loader f).toList) ∧
    (∀ (st : EvalState σ) (f : FileInLibrary), f.File.isForOutput = false →
      isLibraryExport f = false → evalFile E Root st f = (none, st)) := by
  obtain ⟨st, out, tr, hloop, _, _, hasm⟩ :=
    Eval_ok_inv E mapRange Root files values libraryValues librarySchemas r h
  obtain ⟨he1, he2⟩ := evalLoop_exports E Root files _ st hloop
  obtain ⟨_, _, _, hexp⟩ := assembleLoop_spec E out _ _ r tr hasm
  simp only [initialEvalState, List.nil_append, List.map_nil] at he1 he2
  simp only at hexp
  refine ⟨?_, ?_, ?_, ?_⟩
  · rw [hexp, he1]
  · rw [hexp, he2]
  · intro st0 st1 f hout hstep
    obtain ⟨h1, _, h3⟩ := evalFile_exports E Root st0 st1 f hstep
    exact ⟨(h3 hout).1, (h3 hout).2, h1⟩
  · intro st0 f hout hexp0
    exact evalFile_ignored E Root st0 f hout hexp0

theorem Eval_exports_witness :
    (Eval sampleEngine id sampleLibrary
        [sampleStarlarkLib "lib.star", sampleYAML "a.yml"] sampleValues [] []).1
      = .ok { Files := [⟨"a.yml", "a.yml", .TypeYAML⟩], DocSet := ⟨[⟨"a.yml"⟩]⟩,
              Exports := [⟨"lib.star", [("greet", .string "hello")]⟩] } ∧
    ([⟨"lib.star", [("greet", .string "hello")]⟩] : List EvalExport)
      = expectedExports sampleEngine sampleLibrary
          [sampleStarlarkLib "lib.star", sampleYAML "a.yml"] [] :=
  ⟨rfl, (Eval_exports sampleEngine id sampleLibrary
      [sampleStarlarkLib "lib.star", sampleYAML "a.yml"] sampleValues [] []
      { Files := [⟨"a.yml", "a.yml", .TypeYAML⟩], DocSet := ⟨[⟨"a.yml"⟩]⟩,
        Exports := [⟨"lib.star", [("greet", .string "hello")]⟩] } rfl).1⟩

end Ytt.Workspace

namespace Ytt.Workspace

/-! ## Order and content of the assembled result -/

theorem mem_keys_set (m : DocSets) (a k : FileInLibrary) (v : DocumentSet) :
    k ∈ (DocSets.set m a v).map Prod.fst ↔ k ∈ m.map Prod.fst ∨ k = a := by
  unfold DocSets.set
  split
  · rename_i hsome
    have hmem : a ∈ m.map Prod.fst := by
      by_contra hno
      rw [lookup_eq_none_of_not_mem m a hno] at hsome
      simp at hsome
    constructor
    · intro hk
      simp only [List.map_map, List.mem_map, Function.comp] at hk
      obtain ⟨p, hp, hpk⟩ := hk
      by_cases hpa : p.1 = a
      · simp only [hpa, if_true] at hpk
        exact Or.inr hpk.symm
      · simp only [hpa, if_false] at hpk
        exact Or.inl (List.mem_map.2 ⟨p, hp, hpk⟩)
    · rintro (hk | hk)
      · simp only [List.mem_map] at hk
        obtain ⟨p, hp, hpk⟩ := hk
        simp only [List.map_map, List.mem_map, Function.comp]
        refine ⟨p, hp, ?_⟩
        by_cases hpa : p.1 = a
        · simp only [hpa, if_true]
          rw [← hpk, hpa]
        · simp only [hpa, if_false]
          exact hpk
      · subst hk
        simp only [List.mem_map] at hmem
        obtain ⟨p, hp, hpk⟩ := hmem
        simp only [List.map_map, List.mem_map, Function.comp]
        exact ⟨p, hp, by simp [hpk]⟩
  · simp [or_comm]

theorem evalFile_collects {σ : Type} (E : Collaborators σ) (Root : Library)
    (st st1 : EvalState σ) (f : FileInLibrary)
    (h : evalFile E Root st f = (none, st1)) :
    st1.outputFiles.map (fun o => o.relativePath)
      = st.outputFiles.map (fun o => o.relativePath)
        ++ ([f].filter isTextOutput).map (fun g => g.relativePath) ∧
    (∀ k, k ∈ st1.docSets.map Prod.fst ↔
      k ∈ st.docSets.map Prod.fst ∨ (k = f ∧ isYamlOutput f = true)) := by
  simp only [evalFile] at h
  simp only [isTextOutput, isYamlOutput, List.filter]
  cases hfo : f.File.isForOutput <;> cases hlib : f.File.isLibrary <;>
    cases hty : f.File.type <;>
    simp only [hfo, hlib, hty, Bool.false_eq_true, if_false, if_true, false_and, true_and,
      and_self, and_false, reduceCtorEq] at h ⊢
  all_goals (repeat' split at h)
  all_goals
    simp only [Prod.mk.injEq, reduceCtorEq, false_and, true_and] at h
  all_goals
    subst h
    first
      | (simp_all [NewOutputFile]; done)
      | (rename_i x1 x2 ds x4 x5
         refine ⟨by simp, fun k => ?_⟩
         have hk := mem_keys_set st.docSets f k ds
         simpa using hk)

theorem evalLoop_collects {σ : Type} (E : Collaborators σ) (Root : Library)
    (files : List FileInLibrary) (st st1 : EvalState σ)
    (h : evalLoop E Root files st = (none, st1)) :
    st1.outputFiles.map (fun o => o.relativePath)
      = st.outputFiles.map (fun o => o.relativePath)
        ++ (files.filter isTextOutput).map (fun g => g.relativePath) ∧
    (∀ k, k ∈ st1.docSets.map Prod.fst ↔
      k ∈ st.docSets.map Prod.fst ∨ (k ∈ files ∧ isYamlOutput k = true)) := by
  induction files generalizing st with
  | nil =>
    simp only [evalLoop, Prod.mk.injEq, true_and] at h
    subst h
    simp
  | cons f rest ih =>
    simp only [evalLoop] at h
    rcases hstep : evalFile E Root st f with ⟨_ | e, st2⟩
    · rw [hstep] at h
      obtain ⟨h1, h2⟩ := evalFile_collects E Root st st2 f hstep
      obtain ⟨h3, h4⟩ := ih st2 h
      constructor
      · rw [h3, h1]
        cases hx : isTextOutput f <;> simp [List.filter, hx]
      · intro k
        rw [h4, h2]
        constructor
        · rintro ((hk | ⟨rfl, hy⟩) | ⟨hk, hy⟩)
          · exact Or.inl hk
          · exact Or.inr ⟨List.mem_cons_self _ _, hy⟩
          · exact Or.inr ⟨List.mem_cons_of_mem _ hk, hy⟩
        · rintro (hk | ⟨hk, hy⟩)
          · exact Or.inl (Or.inl hk)
          · rcases List.mem_cons.1 hk with rfl | hk
            · exact Or.inl (Or.inr ⟨rfl, hy⟩)
            · exact Or.inr ⟨hk, hy⟩
    · rw [hstep] at h
      simp at h

/-- C15 (amended): for every successful `Eval`, the map given to overlay
post-processing has exactly the YAML output files as keys; with `S` the keys
of the post-processed map sorted by `SortFilesInLibrary`, `DocSet.Items` is
the concatenation, in the order of `S`, of the post-processed document sets,
and `Files` is the plain-text output files in enumeration order followed by
one entry per file of `S`, in the order of `S`, holding the serialized bytes
of its document set under the file's relative path. -/
theorem Eval_assembly {σ : Type} (E : Collaborators σ)
    (mapRange : List FileInLibrary → List FileInLibrary) (Root : Library)
    (files : List FileInLibrary) (values : DataValues) (libraryValues : List DataValues)
    (librarySchemas : List DocumentSchema) (r : EvalResult)
    (hrange : ∀ l, (mapRange l).Perm l)
    (h : (Eval E mapRange Root files values libraryValues librarySchemas).1 = .ok r) :
    ∃ st out,
      evalLoop E Root files (initialEvalState E values libraryValues librarySchemas)
        = (none, st) ∧
      E.PostProcess st.docSets = .ok out ∧
      (∀ k, k ∈ st.docSets.map Prod.fst ↔ k ∈ files ∧ isYamlOutput k = true) ∧
      (sortedOutputDocSets mapRange out).Perm (out.map Prod.fst) ∧
      (sortedOutputDocSets mapRange out).Pairwise (fun a b => fileOrderLE a b = true) ∧
      r.DocSet.Items = ((sortedOutputDocSets mapRange out).map (docsOfFile out)).flatten ∧
      r.Files = st.outputFiles
        ++ (sortedOutputDocSets mapRange out).filterMap (yamlOutputFile E out) ∧
      st.outputFiles.map (fun o => o.relativePath)
        = (files.filter isTextOutput).map (fun f => f.relativePath) ∧
      ((sortedOutputDocSets mapRange out).filterMap (yamlOutputFile E out)).map
          (fun o => o.relativePath)
        = (sortedOutputDocSets mapRange out).map (fun f => f.relativePath) := by
  obtain ⟨st, out, tr, hloop, _, hpp, hasm⟩ :=
    Eval_ok_inv E mapRange Root files values libraryValues librarySchemas r h
  obtain ⟨hc1, hc2⟩ := evalLoop_collects E Root files _ st hloop
  obtain ⟨ha1, ha2, ha3, _⟩ := assembleLoop_spec E out _ _ r tr hasm
  simp only [initialEvalState, List.map_nil, List.nil_append, List.not_mem_nil,
    false_or] at hc1 hc2
  simp only [List.nil_append] at ha1 ha2
  refine ⟨st, out, hloop, hpp, hc2, ?_, ?_, ha1, ha2, hc1, ha3⟩
  · unfold sortedOutputDocSets SortFilesInLibrary
    exact (List.perm_insertionSort _ _).trans (hrange _)
  · unfold sortedOutputDocSets SortFilesInLibrary
    exact @List.sorted_insertionSort _ _ _ fileOrderLE_total fileOrderLE_trans _

/-- C15 as stated fails: with a YAML output file `a.yml` and a plain-text
output file `b.txt`, the entry of `b.txt` comes first in `Files` although
`a.yml` comes first in the order of `SortFilesInLibrary`. -/
theorem Eval_files_order_counterexample :
    (Eval sampleEngine id sampleLibrary [sampleYAML "a.yml", sampleText "b.txt"]
        sampleValues [] []).1
      = .ok { Files := [⟨"b.txt", "b.txt", .TypeText⟩, ⟨"a.yml", "a.yml", .TypeYAML⟩],
              DocSet := ⟨[⟨"a.yml"⟩]⟩, Exports := [] } ∧
    fileOrderLE (sampleYAML "a.yml") (sampleText "b.txt") = true ∧
    fileOrderLE (sampleText "b.txt") (sampleYAML "a.yml") = false := by
  have hlt : "a.yml" < "b.txt" := by
    rw [String.lt_iff_toList_lt]
    decide
  refine ⟨rfl, ?_, ?_⟩
  · rw [fileOrderLE_iff]
    exact Or.inr ⟨rfl, le_of_lt hlt⟩
  · rw [Bool.eq_false_iff]
    intro hle
    rw [fileOrderLE_iff] at hle
    rcases hle with h1 | ⟨_, h2⟩
    · exact absurd h1 (lt_irrefl _)
    · exact absurd hlt (not_lt.2 h2)

theorem Eval_assembly_witness :
    ∃ st out,
      evalLoop sampleEngine sampleLibrary [sampleYAML "a.yml", sampleText "b.txt"]
          (initialEvalState sampleEngine sampleValues [] []) = (none, st) ∧
      sampleEngine.PostProcess st.docSets = .ok out ∧
      (Eval sampleEngine id sampleLibrary [sampleYAML "a.yml", sampleText "b.txt"]
          sampleValues [] []).1
        = .ok { Files := st.outputFiles
                  ++ (sortedOutputDocSets id out).filterMap (yamlOutputFile sampleEngine out),
                DocSet := ⟨[⟨"a.yml"⟩]⟩, Exports := [] } := by
  obtain ⟨st, out, hloop, hpp, _, _, _, _, hfiles, _, _⟩ :=
    Eval_assembly sampleEngine id sampleLibrary [sampleYAML "a.yml", sampleText "b.txt"]
      sampleValues [] []
      { Files := [⟨"b.txt", "b.txt", .TypeText⟩, ⟨"a.yml", "a.yml", .TypeYAML⟩],
        DocSet := ⟨[⟨"a.yml"⟩]⟩, Exports := [] }
      (fun _ => List.Perm.refl _) rfl
  refine ⟨st, out, hloop, hpp, ?_⟩
  rw [← hfiles]
  rfl

end Ytt.Workspace

namespace Ytt.Workspace

/-! ## Discovery: selected files, flags, errors -/

theorem filesByAnnotationLoop_files {σ : Type} (E : Collaborators σ)
    (annName : Schema.AnnotationName) (files acc r : List FileInLibrary)
    (h : (filesByAnnotationLoop E annName files acc).result = .ok r) :
    (filesByAnnotationLoop E annName files acc).files = afterDiscovery E annName files := by
  induction files generalizing acc with
  | nil => simp [filesByAnnotationLoop, afterDiscovery]
  | cons f rest ih =>
    unfold filesByAnnotationLoop at h ⊢
    by_cases hsel : f.File.type = .TypeYAML ∧ f.File.isTemplate = true
    · simp only [hsel, and_self, if_true] at h ⊢
      cases hparse : E.ParseYAML f.File with
      | error e => simp [hparse] at h
      | ok docSet =>
        simp only [hparse] at h ⊢
        cases hext : E.Extract annName docSet with
        | error e => simp [hext] at h
        | ok p =>
          obtain ⟨vals, others⟩ := p
          simp only [hext] at h ⊢
          by_cases hlen : vals.length > 0
          · simp only [hlen, if_true] at h ⊢
            have hm : matchesAnnotation E annName f = true := by
              simp [ matchesAnnotation, hsel.1, hsel.2, hparse, hext, hlen]
            rw [ih _ h]
            simp [afterDiscovery, hm, markNotForOutput]
          · simp only [hlen, if_false] at h ⊢
            have hm : matchesAnnotation E annName f = false := by
              simp [ matchesAnnotation, hsel.1, hsel.2, hparse, hext, hlen]
            rw [ih _ h]
            simp [afterDiscovery, hm]
    · simp only [hsel, if_false] at h ⊢
      have hm : matchesAnnotation E annName f = false := by
        rw [Bool.eq_false_iff]
        simp only [ matchesAnnotation, Bool.and_eq_true, decide_eq_true_eq, ne_eq, not_and]
        intro h1
        exact absurd h1 hsel
      rw [ih _ h]
      simp [afterDiscovery, hm]

theorem Schemas_files {σ : Type} (E : Collaborators σ) (SchemaEnabled : Bool)
    (files : List FileInLibrary) (schemaOverlays : List DocumentSchema) :
    (Schemas E SchemaEnabled files schemaOverlays).files = (schemaFiles E files).files := by
  unfold Schemas
  simp only
  cases hres : (schemaFiles E files).result with
  | error e => rfl
  | ok found =>
    simp only
    cases SchemaEnabled with
    | false => rfl
    | true =>
      simp only [if_true]
      rcases collectSchemaDocs E found (E.NewTemplateLoader E.NewEmptyDataValues [] [])
        with ⟨_ | docs, tr⟩
      · rfl
      · simp only
        rcases mergeLoop E (docs ++ schemaOverlays) none [] with ⟨_ | ⟨_ | d, libs⟩, tr2⟩
        · rfl
        · rfl
        · simp only
          cases E.NewDocumentSchema d <;> rfl

theorem Values_files {σ : Type} (E : Collaborators σ)
    (Apply : List FileInLibrary → List DataValues → Schema → σ → Bool →
      Except Err (DataValues × List DataValues))
    (ignore : Bool) (files : List FileInLibrary) (valuesOverlays : List DataValues)
    (schema : Schema) :
    (Values E Apply ignore files valuesOverlays schema).files = (valuesFiles E files).files := by
  unfold Values
  simp only
  cases (valuesFiles E files).result <;> rfl

end Ytt.Workspace

namespace Ytt.Workspace

/-! ## Matched files in a following `Eval` -/

/-- C14 (amended): every file that `filesByAnnotation` matched, during
`Schemas` or during `Values`, is among the files a following `Eval`
enumerates and is marked not for output; its iteration in the loop of `eval`
adds no document set and no output file, and when the file is not flagged as
library the iteration changes nothing at all: the file is not evaluated and
yields no export.  A matched file that is also flagged as library has kind
YAML and is evaluated as a library file: its iteration calls `EvalYAML` on
it, and when that evaluation succeeds it appends an export with the file's
relative path and the returned globals (when it fails, the error ends the
loop). -/
theorem matched_files_in_Eval {σ : Type} (E : Collaborators σ)
    (files : List FileInLibrary) (annName : Schema.AnnotationName)
    (found : List FileInLibrary)
    (hfound : ( filesByAnnotation E files annName).result = .ok found) :
    (∀ g ∈ found,
      g ∈ ( filesByAnnotation E files annName).files ∧ g.File.isForOutput = false) ∧
    (∀ g ∈ found, ∀ (Root : Library) (st st1 : EvalState σ),
      evalFile E Root st g = (none, st1) →
      st1.docSets = st.docSets ∧ st1.outputFiles = st.outputFiles) ∧
    (∀ g ∈ found, g.File.isLibrary = false →
      ∀ (Root : Library) (st : EvalState σ), evalFile E Root st g = (none, st)) ∧
    (∀ enabled overlays,
      (Schemas E enabled files overlays).files = (schemaFiles E files).files) ∧
    (∀ Apply ignore overlays schema,
      (Values E Apply ignore files overlays schema).files = (valuesFiles E files).files) ∧
    (∀ g ∈ found, g.File.isLibrary = true →
      g.File.type = .TypeYAML ∧
      ∀ (Root : Library) (st : EvalState σ),
        evalFile E Root st g =
          match E.EvalYAML st.loader { Current := g.Library, Root := Root } g.File with
          | (.error err, loader1) =>
            (some err,
              { st with
                loader := loader1,
                trace := st.trace
                  ++ [Event.EvalYAML { Current := g.Library, Root := Root } g.File] })
          | (.ok (globals, _), loader1) =>
            (none,
              { st with
                loader := loader1,
                exports := st.exports ++ [{ Path := g.relativePath, Symbols := globals }],
                trace := st.trace
                  ++ [Event.EvalYAML { Current := g.Library, Root := Root } g.File] })) := by
  have hres := filesByAnnotationLoop_result E annName files [] found hfound
  rw [List.nil_append] at hres
  have hfiles := filesByAnnotationLoop_files E annName files [] found hfound
  have hmarked : ∀ g ∈ found, g.File.isForOutput = false := by
    intro g hg
    rw [hres] at hg
    obtain ⟨f0, _, rfl⟩ := List.mem_map.1 hg
    rfl
  have hkind : ∀ g ∈ found, g.File.type = .TypeYAML := by
    intro g hg
    rw [hres] at hg
    obtain ⟨f0, hf0, rfl⟩ := List.mem_map.1 hg
    obtain ⟨_, hmatch⟩ := List.mem_filter.1 hf0
    simp only [ matchesAnnotation, Bool.and_eq_true, decide_eq_true_eq] at hmatch
    exact hmatch.1.1
  refine ⟨?_, ?_, ?_, ?_, ?_, ?_⟩
  · intro g hg
    refine ⟨?_, hmarked g hg⟩
    have hfiles2 : ( filesByAnnotation E files annName).files
        = afterDiscovery E annName files := hfiles
    rw [hfiles2]
    rw [hres] at hg
    obtain ⟨f0, hf0, rfl⟩ := List.mem_map.1 hg
    obtain ⟨hmem, hmatch⟩ := List.mem_filter.1 hf0
    unfold afterDiscovery
    exact List.mem_map.2 ⟨f0, hmem, by simp [hmatch]⟩
  · intro g hg Root st st1 hstep
    exact (evalFile_exports E Root st st1 g hstep).2.2 (hmarked g hg)
  · intro g hg hlib Root st
    apply evalFile_ignored E Root st g (hmarked g hg)
    simp [isLibraryExport, hlib]
  · intro enabled overlays
    exact Schemas_files E enabled files overlays
  · intro Apply ignore overlays schema
    exact Values_files E Apply ignore files overlays schema
  · intro g hg hlib
    refine ⟨hkind g hg, ?_⟩
    intro Root st
    simp only [evalFile, hmarked g hg, hlib, hkind g hg, Bool.false_eq_true, if_false, if_true]

/-- C14 as stated fails: `schema.yml`, a YAML template that is also flagged
as library, is matched by `Schemas` and marked not for output, and the
following `Eval` evaluates it and returns an export for it. -/
theorem matched_library_file_counterexample :
    (schemaFiles sampleEngine [sampleYAMLLib "schema.yml"]).result
      = .ok [markNotForOutput (sampleYAMLLib "schema.yml")] ∧
    (Schemas sampleEngine false [sampleYAMLLib "schema.yml"] []).files
      = [markNotForOutput (sampleYAMLLib "schema.yml")] ∧
    Eval sampleEngine id sampleLibrary [markNotForOutput (sampleYAMLLib "schema.yml")]
        sampleValues [] []
      = (.ok { Files := [], DocSet := ⟨[]⟩, Exports := [⟨"schema.yml", []⟩] },
         [.EvalYAML ⟨sampleLibrary, sampleLibrary⟩
            (markNotForOutput (sampleYAMLLib "schema.yml")).File,
          .PostProcess []]) :=
  ⟨rfl, rfl, rfl⟩

theorem matched_files_in_Eval_witness :
    evalFile sampleEngine sampleLibrary (initialEvalState sampleEngine sampleValues [] [])
        (markNotForOutput (sampleYAML "schema.yml"))
      = (none, initialEvalState sampleEngine sampleValues [] []) :=
  (matched_files_in_Eval sampleEngine [sampleYAML "a.yml", sampleYAML "schema.yml"]
    "schema/match" [markNotForOutput (sampleYAML "schema.yml")] rfl).2.2.1
    (markNotForOutput (sampleYAML "schema.yml")) (List.mem_singleton.2 rfl) rfl
    sampleLibrary (initialEvalState sampleEngine sampleValues [] [])

/-! ## Library schemas -/

theorem mergeLoop_events_some {σ : Type} (E : Collaborators σ) (docs : List DocumentSchema)
    (base : Document) (libs : List DocumentSchema) :
    (mergeLoop E docs (some base) libs).2 = overlayFoldEvents E base (rootScoped docs) := by
  induction docs generalizing base libs with
  | nil => simp [mergeLoop, rootScoped, overlayFoldEvents]
  | cons d rest ih =>
    cases hb : d.HasLibRef with
    | true =>
      obtain ⟨h1, _⟩ := rootScoped_cons_lib d rest hb
      rw [h1]
      simp only [mergeLoop, hb, if_true, ih]
    | false =>
      obtain ⟨h1, _⟩ := rootScoped_cons_root d rest hb
      rw [h1]
      simp only [mergeLoop, hb, overlayFoldEvents, Bool.false_eq_true, if_false]
      cases hov : E.overlay base d.Source with
      | error e => rfl
      | ok merged => simp only [ih]

theorem mergeLoop_events_none {σ : Type} (E : Collaborators σ) (docs : List DocumentSchema)
    (libs : List DocumentSchema) :
    (mergeLoop E docs none libs).2 =
      match rootScoped docs with
      | [] => []
      | r0 :: rest => overlayFoldEvents E r0.Source rest := by
  induction docs generalizing libs with
  | nil => simp [mergeLoop, rootScoped]
  | cons d rest ih =>
    cases hb : d.HasLibRef with
    | true =>
      obtain ⟨h1, _⟩ := rootScoped_cons_lib d rest hb
      rw [h1]
      simp only [mergeLoop, hb, if_true, ih]
    | false =>
      obtain ⟨h1, _⟩ := rootScoped_cons_root d rest hb
      rw [h1]
      simp only [mergeLoop, hb, Bool.false_eq_true, if_false, mergeLoop_events_some]

/-- C20: with schema processing enabled, `docs` the schema documents
extracted from the discovered files, and a result without error, the library
schemas are the documents of `docs` followed by the overlays whose
`HasLibRef()` is true, in that order, whether the schema is `NullSchema` (no
root-scoped document) or a merged schema; and the merge events of the call
are those of the left fold over the root-scoped documents alone. -/
theorem Schemas_library_schemas {σ : Type} (E : Collaborators σ)
    (files : List FileInLibrary) (schemaOverlays : List DocumentSchema)
    (found : List FileInLibrary) (docs : List DocumentSchema) (tr : List Event)
    (hfound : (schemaFiles E files).result = .ok found)
    (hdocs : collectSchemaDocs E found (E.NewTemplateLoader E.NewEmptyDataValues [] [])
      = (.ok docs, tr)) :
    (∀ s libs, (Schemas E true files schemaOverlays).result = .ok (s, libs) →
      libs = libraryScoped (docs ++ schemaOverlays) ∧
      (s = Schema.NullSchema ↔ rootScoped (docs ++ schemaOverlays) = [])) ∧
    (Schemas E true files schemaOverlays).trace = (schemaFiles E files).trace ++ tr ++
      (match rootScoped (docs ++ schemaOverlays) with
       | [] => []
       | r0 :: rest => overlayFoldEvents E r0.Source rest) := by
  have hmerge := mergeLoop_none E (docs ++ schemaOverlays) []
  have hevents := mergeLoop_events_none E (docs ++ schemaOverlays) []
  simp only [List.nil_append] at hmerge
  unfold Schemas
  simp only [hfound, if_true, hdocs]
  rcases hm : mergeLoop E (docs ++ schemaOverlays) none [] with ⟨res, tr2⟩
  rw [hm] at hmerge hevents
  simp only at hmerge hevents
  subst hmerge
  subst hevents
  cases hroot : rootScoped (docs ++ schemaOverlays) with
  | nil =>
    simp only
    refine ⟨?_, trivial⟩
    intro s libs h
    simp only [Except.ok.injEq, Prod.mk.injEq] at h
    exact ⟨h.2.symm, by simp [← h.1]⟩
  | cons r0 rest =>
    simp only
    cases hfold : overlayFold E r0.Source rest with
    | error e =>
      simp only
      refine ⟨?_, trivial⟩
      intro s libs h
      cases h
    | ok merged =>
      simp only
      cases hnew : E.NewDocumentSchema merged with
      | error e =>
        simp only
        refine ⟨?_, trivial⟩
        intro s libs h
        cases h
      | ok finalSchema =>
        simp only
        refine ⟨?_, trivial⟩
        intro s libs h
        simp only [Except.ok.injEq, Prod.mk.injEq] at h
        exact ⟨h.2.symm, by simp [← h.1]⟩

theorem Schemas_library_schemas_witness :
    (Schemas sampleEngine true [sampleYAML "a.yml", sampleYAML "schema.yml"]
        [⟨⟨"x"⟩, false⟩, ⟨⟨"y"⟩, true⟩]).trace
      = [.ParseYAML (sampleYAML "a.yml").File, .ParseYAML (sampleYAML "schema.yml").File,
         .MarkForOutput (sampleYAML "schema.yml") false,
         .EvalYAML ⟨sampleLibrary, ⟨""⟩⟩ (markNotForOutput (sampleYAML "schema.yml")).File,
         .overlay ⟨"schema/match"⟩ ⟨"x"⟩] :=
  ((Schemas_library_schemas sampleEngine [sampleYAML "a.yml", sampleYAML "schema.yml"]
    [⟨⟨"x"⟩, false⟩, ⟨⟨"y"⟩, true⟩] [markNotForOutput (sampleYAML "schema.yml")]
    [⟨⟨"schema/match"⟩, false⟩]
    [.EvalYAML ⟨sampleLibrary, ⟨""⟩⟩ (markNotForOutput (sampleYAML "schema.yml")).File]
    rfl rfl).2).trans rfl

end Ytt.Workspace
